import Mathlib

/-!
Verification development for the stilldawn-yve render pipeline.

The Python sources are embedded shallowly:

* `group_words` models the subtitle cue grouping in
  `backend_server.py` (`_generate_ass_subtitles.group_words`).
* `buildXfadeParts` models the cross-fade filter-graph construction in
  `backend_server.py` (`do_render`).
* `do_render` models the registry-visible behaviour of the render thread
  of `backend_server.py` as a trace of events; external subprocess and
  HTTP results are supplied through an environment record.
* `do_render_complete` and `render_video_with_ffmpeg` model the render
  threads of `backend_server_complete.py` and
  `lovable_render_endpoint.py` in the same style.

Times and durations are rationals; message texts are not modelled beyond
the fact that a message write happened.
-/

attribute [local semireducible] Rat.add Rat.sub Rat.mul Rat.inv Rat.ofScientific

/-- Python str.strip with no arguments: drop leading and trailing
whitespace characters. Stated over the character list of the string so
that it evaluates by kernel reduction. -/
def pyStrip (s : String) : String :=
  ⟨((s.data.dropWhile Char.isWhitespace).reverse.dropWhile Char.isWhitespace).reverse⟩

/-- One word-level timestamp entry, a dict with keys word, start, end. -/
structure Word where
  word : String
  start : ℚ
  endTime : ℚ
deriving DecidableEq

/-- One grouped subtitle cue. -/
structure Cue where
  text : String
  start : ℚ
  endTime : ℚ
deriving DecidableEq

/-- Python expression f-string of current text and the next word, stripped.
Since the accumulated text never has outer whitespace, this is a plain
space join with the empty-text case special. -/
def joinStep (currentText wordText : String) : String :=
  if currentText = "" then wordText else currentText ++ " " ++ wordText

/-- Last element of a nonempty list given as head and tail. -/
def lastWord (c : Word) (cs : List Word) : Word :=
  (c :: cs).getLastD c

/-- Terminal punctuation characters, the Python string ".!?". -/
def terminalPunct : List Char := ['.', '!', '?']

/-- Loop body of group_words from backend_server.py, recursing over the
remaining words and carrying current_words and current_text. -/
def group_words_aux (max_words max_chars : ℕ) (max_duration : ℚ) :
    List Word → List Word → String → List Cue
  | [], currentWords, currentText =>
    match currentWords with
    | [] => []
    | c :: cs => [⟨currentText, c.start, (lastWord c cs).endTime⟩]
  | w :: rest, currentWords, currentText =>
    let wordText := pyStrip w.word
    if wordText = "" then
      group_words_aux max_words max_chars max_duration rest currentWords currentText
    else
      let testText := joinStep currentText wordText
      let currentDuration : ℚ :=
        match currentWords with
        | [] => 0
        | c :: _ => w.endTime - c.start
      let shouldBreak : Prop :=
        max_words ≤ currentWords.length ∨
        max_chars < testText.length ∨
        max_duration < currentDuration ∨
        (currentText ≠ "" ∧ currentText.back ∈ terminalPunct)
      if shouldBreak ∧ currentWords ≠ [] then
        match currentWords with
        | [] => group_words_aux max_words max_chars max_duration rest [w] wordText
        | c :: cs =>
          ⟨currentText, c.start, (lastWord c cs).endTime⟩ ::
            group_words_aux max_words max_chars max_duration rest [w] wordText
      else
        group_words_aux max_words max_chars max_duration rest
          (currentWords ++ [w]) (joinStep currentText wordText)

/-- group_words from backend_server.py with its default parameters
max_words = 6, max_chars = 40, max_duration = 3.5. -/
def group_words (words : List Word) : List Cue :=
  group_words_aux 6 40 (7/2) words [] ""

/-- Space join of a list of strings, as Python join with separator " ". -/
def spaceJoin : List String → String
  | [] => ""
  | [s] => s
  | s :: s2 :: rest => s ++ " " ++ spaceJoin (s2 :: rest)

/-- Text of a cue under accumulation per the spec wording: the space join
of the stripped words accumulated so far. -/
def specText (ws : List Word) : String := spaceJoin (ws.map (fun w => pyStrip w.word))

/-- Cue grouping as the claim words it, for comparison with the code:
identical to group_words except that the running-duration break condition
compares the duration of the existing cue, last accumulated word end minus
first word start, against the maximum, instead of using the end of the
incoming candidate word. -/
def claimGroupWords_aux (max_words max_chars : ℕ) (max_duration : ℚ) :
    List Word → List Word → List Cue
  | [], currentWords =>
    match currentWords with
    | [] => []
    | c :: cs => [⟨specText (c :: cs), c.start, (lastWord c cs).endTime⟩]
  | w :: rest, currentWords =>
    let wordText := pyStrip w.word
    if wordText = "" then
      claimGroupWords_aux max_words max_chars max_duration rest currentWords
    else
      let testText := joinStep (specText currentWords) wordText
      let currentDuration : ℚ :=
        match currentWords with
        | [] => 0
        | c :: cs => (lastWord c cs).endTime - c.start
      let shouldBreak : Prop :=
        max_words ≤ currentWords.length ∨
        max_chars < testText.length ∨
        max_duration < currentDuration ∨
        (specText currentWords ≠ "" ∧ (specText currentWords).back ∈ terminalPunct)
      if shouldBreak ∧ currentWords ≠ [] then
        match currentWords with
        | [] => claimGroupWords_aux max_words max_chars max_duration rest [w]
        | c :: cs =>
          ⟨specText (c :: cs), c.start, (lastWord c cs).endTime⟩ ::
            claimGroupWords_aux max_words max_chars max_duration rest [w]
      else
        claimGroupWords_aux max_words max_chars max_duration rest (currentWords ++ [w])

/-- Cue grouping as the claim words it, at the default parameters. -/
def claimGroupWords (words : List Word) : List Cue :=
  claimGroupWords_aux 6 40 (7/2) words []

/-- Spec-side grouping with the amended duration rule: identical break
conditions to the code, but carrying only the accumulated word list and
producing the cue text as the space join of the stripped words when the
cue closes. -/
def specGroupWords_aux (max_words max_chars : ℕ) (max_duration : ℚ) :
    List Word → List Word → List Cue
  | [], currentWords =>
    match currentWords with
    | [] => []
    | c :: cs => [⟨specText (c :: cs), c.start, (lastWord c cs).endTime⟩]
  | w :: rest, currentWords =>
    let wordText := pyStrip w.word
    if wordText = "" then
      specGroupWords_aux max_words max_chars max_duration rest currentWords
    else
      let testText := joinStep (specText currentWords) wordText
      let currentDuration : ℚ :=
        match currentWords with
        | [] => 0
        | c :: _ => w.endTime - c.start
      let shouldBreak : Prop :=
        max_words ≤ currentWords.length ∨
        max_chars < testText.length ∨
        max_duration < currentDuration ∨
        (specText currentWords ≠ "" ∧ (specText currentWords).back ∈ terminalPunct)
      if shouldBreak ∧ currentWords ≠ [] then
        match currentWords with
        | [] => specGroupWords_aux max_words max_chars max_duration rest [w]
        | c :: cs =>
          ⟨specText (c :: cs), c.start, (lastWord c cs).endTime⟩ ::
            specGroupWords_aux max_words max_chars max_duration rest [w]
      else
        specGroupWords_aux max_words max_chars max_duration rest (currentWords ++ [w])

/-- Spec-side grouping at the default parameters. -/
def specGroupWords (words : List Word) : List Cue :=
  specGroupWords_aux 6 40 (7/2) words []


/-! ## Scenes, durations and the cross-fade filter graph -/

/-- Python truthiness of an optional string field: absent and the empty
string are both falsy. -/
def truthy : Option String → Bool
  | none => false
  | some s => s ≠ ""

/-- One entry of the scenes list of a submitted job. -/
structure Scene where
  video_url : Option String
  image_url : Option String
  duration : Option ℚ
deriving DecidableEq

/-- Python expression reading the scene duration with default 10 and the
or-10 guard: a missing duration key and a falsy value, zero, both give
the default 10. -/
def parseDuration : Option ℚ → ℚ
  | none => 10
  | some q => if q = 0 then 10 else q

/-- One entry of the scene_files list built by the download loop. -/
structure SceneFile where
  duration : ℚ
  is_video : Bool
deriving DecidableEq

/-- The scene_files entry produced for a scene, or none when the scene is
skipped because both its video_url and image_url are falsy. -/
def sceneFile : Scene → Option SceneFile
  | s =>
    if truthy s.video_url then some ⟨parseDuration s.duration, true⟩
    else if truthy s.image_url then some ⟨parseDuration s.duration, false⟩
    else none

/-- The duration actually rendered for a scene file: the Python max of
0.5 and the stored duration. -/
def segDuration (q : ℚ) : ℚ := max (1/2) q

/-- The rendered duration of a scene: the floor at 0.5 applied to the
parsed duration. Combines the expressions at the download and segment
render steps of do_render. -/
def renderedDuration (s : Scene) : ℚ := segDuration (parseDuration s.duration)

/-- A stream label in the cross-fade filter graph: either a raw input
video stream, written [i:v] in the command, or the output of an earlier
transition, written [vi]. -/
inductive StreamLabel
  | inputStream (i : ℕ)
  | chained (i : ℕ)
deriving DecidableEq

/-- One xfade expression of the filter_complex chain, carrying its two
source labels, its offset value and its output label. The transition kind
is always fade and the fade duration is always 0.5, so neither is a
field. -/
structure XfadePart where
  left : StreamLabel
  right : StreamLabel
  offset : ℚ
  out : StreamLabel
deriving DecidableEq

/-- Loop of do_render building the filter parts: i is the transition
index and cumulative the running sum of floored durations so far. The
list argument holds the durations of scene_files entries 0 to n-2. -/
def buildXfadeParts_aux : List ℚ → ℕ → ℚ → List XfadePart
  | [], _, _ => []
  | d :: rest, i, cumulative =>
    let cumulative2 := cumulative + segDuration d
    let offset := cumulative2 - 1/2
    ⟨if i = 0 then StreamLabel.inputStream 0 else StreamLabel.chained i,
      StreamLabel.inputStream (i + 1), offset, StreamLabel.chained (i + 1)⟩ ::
      buildXfadeParts_aux rest (i + 1) cumulative2

/-- The chained cross-fade filter parts built by do_render for the given
scene_files durations: one part per transition, using the durations of
segments 0 to n-2, the fade duration 0.5 subtracted from each cumulative
sum. -/
def buildXfadeParts (durs : List ℚ) : List XfadePart :=
  buildXfadeParts_aux (durs.take (durs.length - 1)) 0 0



/-! ## The render pipeline as an event trace

The render thread mutates its registry entry and spawns encoder
subprocesses in a fixed sequential order. The model records this
behaviour as a list of events; results of external subprocesses and of
the upload request are supplied by an environment record. Downloads are
assumed to succeed, and filesystem copies are not failure points of the
model. -/

/-- Result of one external encoder invocation. -/
inductive EncResult
  | ok
  | fail
  | timeout
deriving DecidableEq

/-- Job status values appearing across the three pipeline variants. -/
inductive Status
  | queued
  | downloading
  | rendering
  | completed
  | failed
deriving DecidableEq

/-- Which pipeline stage an encoder invocation belongs to; segment
invocations carry the segment index and the rendered duration passed via
the -t flag. -/
inductive StageTag
  | segmentStage (i : ℕ) (duration : ℚ)
  | xfadeStage
  | concatStage
  | mergeStage
  | subsStage
deriving DecidableEq

/-- Which video file an artifact event refers to. -/
inductive Artifact
  | merged
  | subtitled
deriving DecidableEq

/-- Kind of the videoUrl written into the registry entry. -/
inductive UrlKind
  | remotePublic
  | vpsLocal
  | outputLocal
deriving DecidableEq

/-- Errors raised by the pipeline variants. -/
inductive Err
  | noValidScenes
  | segmentFailed (i : ℕ)
  | segmentTimedOut (i : ℕ)
  | xfadeTimedOut
  | concatFallbackFailed
  | concatFallbackTimedOut
  | mergeFailed
  | mergeTimedOut
  | concatFailed
  | uploadFailed (status : ℕ)
  | noServiceKey
  | burnFailed
deriving DecidableEq

/-- One observable step of a render thread: a write to the registry entry
of the job, an encoder invocation, or a publish action. -/
inductive Event
  | setStatus (s : Status)
  | setProgress (p : ℕ)
  | setMessage
  | encoderInvoke (t : StageTag)
  | localBackup (a : Artifact)
  | uploadAttempt (a : Artifact)
  | setVideoUrl (u : UrlKind)
  | setUploadError
  | setError (e : Err)
deriving DecidableEq

/-- Environment of one run of do_render of backend_server.py: results of
the encoder invocations and the HTTP status of the storage upload. -/
structure Env where
  segResults : ℕ → EncResult
  xfadeResult : EncResult
  concatResult : EncResult
  mergeResult : EncResult
  subsResult : EncResult
  uploadStatus : ℕ

/-- Input of one do_render run of backend_server.py, after the request
validation of the submission handler. hasCreds is the conjunction of a
supabase_url being present and a service key being available. -/
structure JobInput where
  scenes : List Scene
  word_timestamps : List Word
  hasCreds : Bool

/-- The trace of the except handler of do_render: the registry is set to
failed with the error and a message. -/
def failTrace (e : Err) : List Event :=
  [Event.setStatus Status.failed, Event.setError e, Event.setMessage]

/-- Download loop of do_render: for each scene with a truthy video_url or
image_url a file is downloaded and the progress is written; scenes with
neither are skipped without any write. n is max(len(scenes), 1). -/
def downloadEvents : List Scene → ℕ → ℕ → List Event × List SceneFile
  | [], _, _ => ([], [])
  | s :: rest, n, i =>
    let tail := downloadEvents rest n (i + 1)
    match sceneFile s with
    | none => tail
    | some f =>
      (Event.setProgress (20 * (i + 1) / n) :: tail.1, f :: tail.2)

/-- Segment render loop of do_render: one encoder invocation per scene
file, failing the job on a non-zero exit or timeout, otherwise writing
progress and a message. m is the total number of scene files and i the
index of the current one. -/
def segmentEvents : List SceneFile → (ℕ → EncResult) → ℕ → ℕ → List Event × Option Err
  | [], _, _, _ => ([], none)
  | f :: rest, res, m, i =>
    let inv := Event.encoderInvoke (StageTag.segmentStage i (segDuration f.duration))
    match res i with
    | EncResult.timeout => ([inv], some (Err.segmentTimedOut i))
    | EncResult.fail => ([inv], some (Err.segmentFailed i))
    | EncResult.ok =>
      let tail := segmentEvents rest res m (i + 1)
      (inv :: Event.setProgress (20 + 50 * (i + 1) / m) :: Event.setMessage :: tail.1,
        tail.2)

/-- Assembly step of do_render: with one segment the file is copied with
no encoder invocation; otherwise the xfade invocation runs, a timeout
raises, and a non-zero exit falls back to the concat invocation whose own
failure or timeout raises. -/
def assemblyEvents (m : ℕ) (env : Env) : List Event × Option Err :=
  if m = 1 then ([], none)
  else
    let inv := Event.encoderInvoke StageTag.xfadeStage
    match env.xfadeResult with
    | EncResult.ok => ([inv], none)
    | EncResult.timeout => ([inv], some Err.xfadeTimedOut)
    | EncResult.fail =>
      let cinv := Event.encoderInvoke StageTag.concatStage
      match env.concatResult with
      | EncResult.ok => ([inv, cinv], none)
      | EncResult.fail => ([inv, cinv], some Err.concatFallbackFailed)
      | EncResult.timeout => ([inv, cinv], some Err.concatFallbackTimedOut)

/-- Audio merge step of do_render: a single encoder invocation whose
non-zero exit or timeout raises. -/
def mergeEvents (env : Env) : List Event × Option Err :=
  let inv := Event.encoderInvoke StageTag.mergeStage
  match env.mergeResult with
  | EncResult.ok => ([inv], none)
  | EncResult.fail => ([inv], some Err.mergeFailed)
  | EncResult.timeout => ([inv], some Err.mergeTimedOut)

/-- Subtitle step of do_render: runs only when word timestamps were
supplied; when grouping yields no cues the burn is skipped; when the burn
encoder invocation times out or exits non-zero the job continues with the
merged artifact; only a successful burn switches the final artifact. -/
def subsEvents (wts : List Word) (env : Env) : List Event × Artifact :=
  if wts.isEmpty then ([], Artifact.merged)
  else if (group_words wts).isEmpty then ([Event.setMessage], Artifact.merged)
  else
    let inv := Event.encoderInvoke StageTag.subsStage
    match env.subsResult with
    | EncResult.ok => ([Event.setMessage, inv], Artifact.subtitled)
    | EncResult.fail => ([Event.setMessage, inv], Artifact.merged)
    | EncResult.timeout => ([Event.setMessage, inv], Artifact.merged)

/-- Publish step of do_render: the local backup copy always happens
first; with credentials the upload runs and a status outside 200 and 201
records an upload error and the VPS-local video endpoint URL without
failing; without credentials the VPS-local URL is used directly. -/
def publishEvents (a : Artifact) (hasCreds : Bool) (uploadStatus : ℕ) : List Event :=
  [Event.localBackup a, Event.setMessage] ++
    (if hasCreds then
      Event.uploadAttempt a ::
        (if uploadStatus = 200 ∨ uploadStatus = 201 then
          [Event.setVideoUrl UrlKind.remotePublic]
        else
          [Event.setVideoUrl UrlKind.vpsLocal, Event.setUploadError])
    else [Event.setVideoUrl UrlKind.vpsLocal])

/-- The closing writes of a successful do_render run. -/
def doneTrace : List Event :=
  [Event.setStatus Status.completed, Event.setProgress 100, Event.setMessage]

/-- Opening writes of do_render of backend_server.py: the rendering
status and the preparation and download messages. Downloads are assumed
to succeed and the helper that patches the remote renders table swallows
its own errors, so it contributes no event. -/
def preTrace : List Event :=
  [Event.setStatus Status.rendering, Event.setMessage, Event.setMessage,
    Event.setMessage]

/-- Event trace of one run of the do_render render thread of
backend_server.py, stage by stage in source order. -/
def do_render (inp : JobInput) (env : Env) : List Event :=
  let pre := preTrace
  let n := max 1 inp.scenes.length
  let dl := downloadEvents inp.scenes n 0
  if dl.2.isEmpty then pre ++ dl.1 ++ failTrace Err.noValidScenes
  else
    let m := dl.2.length
    let seg := segmentEvents dl.2 env.segResults m 0
    match seg.2 with
    | some e => pre ++ dl.1 ++ Event.setMessage :: seg.1 ++ failTrace e
    | none =>
      let asm := assemblyEvents m env
      match asm.2 with
      | some e =>
        pre ++ dl.1 ++ Event.setMessage :: seg.1 ++ Event.setMessage :: asm.1 ++
          failTrace e
      | none =>
        let mrg := mergeEvents env
        match mrg.2 with
        | some e =>
          pre ++ dl.1 ++ Event.setMessage :: seg.1 ++ Event.setMessage :: asm.1 ++
            Event.setProgress 75 :: Event.setMessage :: mrg.1 ++ failTrace e
        | none =>
          let subs := subsEvents inp.word_timestamps env
          pre ++ dl.1 ++ Event.setMessage :: seg.1 ++ Event.setMessage :: asm.1 ++
            Event.setProgress 75 :: Event.setMessage :: mrg.1 ++
            Event.setProgress 82 :: subs.1 ++
            Event.setProgress 90 ::
            publishEvents subs.2 inp.hasCreds env.uploadStatus ++ doneTrace

/-- The registry entry of a job as seen by status polling. -/
structure JobState where
  status : Status
  progress : ℕ
  videoUrl : Option UrlKind
  error : Option Err
  localPath : Option Artifact
  uploadError : Bool
deriving DecidableEq

/-- The registry entry at job creation. -/
def initState : JobState :=
  ⟨Status.queued, 0, none, none, none, false⟩

/-- Effect of one trace event on the registry entry. -/
def applyEvent (st : JobState) : Event → JobState
  | Event.setStatus s => { st with status := s }
  | Event.setProgress p => { st with progress := p }
  | Event.setMessage => st
  | Event.encoderInvoke _ => st
  | Event.localBackup a => { st with localPath := some a }
  | Event.uploadAttempt _ => st
  | Event.setVideoUrl u => { st with videoUrl := some u }
  | Event.setUploadError => { st with uploadError := true }
  | Event.setError e => { st with error := some e }

/-- The registry entry after a full trace. -/
def runTrace (evs : List Event) : JobState :=
  evs.foldl applyEvent initState

/-- The registry entry after one backend_server.py render run. -/
def runJob (inp : JobInput) (env : Env) : JobState :=
  runTrace (do_render inp env)

/-- The sequence of status values written by a trace. -/
def statusWrites (evs : List Event) : List Status :=
  evs.filterMap fun e =>
    match e with
    | Event.setStatus s => some s
    | _ => none

/-- The sequence of progress values written by a trace. -/
def progressWrites (evs : List Event) : List ℕ :=
  evs.filterMap fun e =>
    match e with
    | Event.setProgress p => some p
    | _ => none

/-- The encoder invocations performed by a trace, in order. -/
def encoderInvocations (evs : List Event) : List StageTag :=
  evs.filterMap fun e =>
    match e with
    | Event.encoderInvoke t => some t
    | _ => none

/-- Success condition of the assembly stage at the environment level: a
single segment is copied, a clean xfade succeeds, and a non-zero xfade
exit succeeds through the concat fallback. -/
def assemblyOk (m : ℕ) (env : Env) : Prop :=
  m = 1 ∨ env.xfadeResult = EncResult.ok ∨
    (env.xfadeResult = EncResult.fail ∧ env.concatResult = EncResult.ok)

/-- Event class of every trace element before the publish step: progress,
message, encoder invocation or status writes only. -/
def basicEvent (ev : Event) : Prop :=
  (∃ p, ev = Event.setProgress p) ∨ ev = Event.setMessage ∨
  (∃ t, ev = Event.encoderInvoke t) ∨ (∃ s, ev = Event.setStatus s)

/-- Scan deciding that every upload attempt in the trace is preceded by
an earlier local backup event. -/
def backupBeforeUpload : List Event → Bool → Bool
  | [], _ => true
  | e :: rest, seen =>
    match e with
    | Event.localBackup _ => backupBeforeUpload rest true
    | Event.uploadAttempt _ => seen && backupBeforeUpload rest seen
    | _ => backupBeforeUpload rest seen

/-! ## The older do_render of backend_server_complete.py -/

/-- Environment of one run of do_render of backend_server_complete.py.
Its subprocess calls carry no timeout, so each encoder result is a plain
success flag. -/
structure CompleteEnv where
  segOk : ℕ → Bool
  concatOk : Bool
  mergeOk : Bool
  uploadStatus : ℕ

/-- Input of one do_render run of backend_server_complete.py; only
image_url is consulted for scenes, and hasCreds is the conjunction of
supabase_url and supabase_key being present. -/
structure CompleteInput where
  scenes : List Scene
  hasCreds : Bool

/-- Download loop of the older do_render: only scenes with a truthy
image_url produce a file and a progress write. -/
def downloadEventsComplete : List Scene → ℕ → ℕ → List Event × List ℚ
  | [], _, _ => ([], [])
  | s :: rest, n, i =>
    let tail := downloadEventsComplete rest n (i + 1)
    if truthy s.image_url then
      (Event.setProgress (20 * (i + 1) / n) :: tail.1,
        parseDuration s.duration :: tail.2)
    else tail

/-- Segment loop of the older do_render: Ken Burns zoompan segments with
no subprocess timeout; a non-zero exit raises. -/
def segmentEventsComplete : List ℚ → (ℕ → Bool) → ℕ → ℕ → List Event × Option Err
  | [], _, _, _ => ([], none)
  | d :: rest, res, m, i =>
    let inv := Event.encoderInvoke (StageTag.segmentStage i (segDuration d))
    if res i then
      let tail := segmentEventsComplete rest res m (i + 1)
      (inv :: Event.setProgress (20 + 50 * (i + 1) / m) :: Event.setMessage :: tail.1,
        tail.2)
    else ([inv], some (Err.segmentFailed i))

/-- Event trace of one run of the do_render render thread of
backend_server_complete.py. Unlike the newer generation there is no
cross-fade step, no subtitle step, no unconditional local backup, and a
non-2xx upload response raises and fails the job. -/
def do_render_complete (inp : CompleteInput) (env : CompleteEnv) : List Event :=
  let pre := [Event.setStatus Status.rendering, Event.setMessage, Event.setMessage,
    Event.setMessage]
  let n := max 1 inp.scenes.length
  let dl := downloadEventsComplete inp.scenes n 0
  if dl.2.isEmpty then pre ++ dl.1 ++ failTrace Err.noValidScenes
  else
    let m := dl.2.length
    let seg := segmentEventsComplete dl.2 env.segOk m 0
    match seg.2 with
    | some e => pre ++ dl.1 ++ Event.setMessage :: seg.1 ++ failTrace e
    | none =>
      let base := pre ++ dl.1 ++ Event.setMessage :: seg.1 ++
        [Event.setMessage, Event.encoderInvoke StageTag.concatStage]
      if ¬ env.concatOk then base ++ failTrace Err.concatFailed
      else
        let base2 := base ++ [Event.setProgress 75, Event.setMessage,
          Event.encoderInvoke StageTag.mergeStage]
        if ¬ env.mergeOk then base2 ++ failTrace Err.mergeFailed
        else
          let base3 := base2 ++ [Event.setProgress 90, Event.setMessage]
          if inp.hasCreds then
            let base4 := base3 ++ [Event.uploadAttempt Artifact.merged]
            if env.uploadStatus = 200 ∨ env.uploadStatus = 201 then
              base4 ++ [Event.setVideoUrl UrlKind.remotePublic] ++ doneTrace
            else
              base4 ++ failTrace (Err.uploadFailed env.uploadStatus)
          else
            base3 ++ [Event.localBackup Artifact.merged,
              Event.setVideoUrl UrlKind.outputLocal] ++ doneTrace

/-- The registry entry after one backend_server_complete.py render run. -/
def runJobComplete (inp : CompleteInput) (env : CompleteEnv) : JobState :=
  runTrace (do_render_complete inp env)

/-! ## render_video_with_ffmpeg of lovable_render_endpoint.py -/

/-- One scene record as read by lovable_render_endpoint.py: an image
reference, an optional fallback list of image references, and start and
end times from which the duration is derived. -/
structure EndpointScene where
  image_url : Option String
  image_urls : List String
  start_time : ℚ
  end_time : ℚ
deriving DecidableEq

/-- Input of one render_video_with_ffmpeg run; hasServiceKey models the
SUPABASE_SERVICE_ROLE_KEY environment variable being set. -/
structure EndpointInput where
  scenes : List EndpointScene
  hasServiceKey : Bool

/-- Environment of one render_video_with_ffmpeg run; each subprocess.run
either succeeds or raises, through a non-zero exit or its timeout. -/
structure EndpointEnv where
  segOk : ℕ → Bool
  concatOk : Bool
  mergeOk : Bool
  subsOk : Bool
  uploadStatus : ℕ

/-- Effective image reference of an endpoint scene: a falsy image_url
falls back to the first entry of image_urls when that list is nonempty. -/
def epImage (s : EndpointScene) : Option String :=
  if truthy s.image_url then s.image_url
  else
    match s.image_urls with
    | [] => s.image_url
    | u :: _ => some u

/-- Segment duration of an endpoint scene: end_time minus start_time,
with a non-positive difference replaced by the default 5 seconds. -/
def epDuration (s : EndpointScene) : ℚ :=
  let d := s.end_time - s.start_time
  if d ≤ 0 then 5 else d

/-- Download loop of render_video_with_ffmpeg: every scene writes
progress and a message first; scenes without an effective image are then
skipped. -/
def downloadEventsEp : List EndpointScene → ℕ → ℕ → List Event × List ℚ
  | [], _, _ => ([], [])
  | s :: rest, n, i =>
    let tail := downloadEventsEp rest n (i + 1)
    let head := [Event.setProgress (25 * i / n), Event.setMessage]
    if truthy (epImage s) then
      (head ++ tail.1, epDuration s :: tail.2)
    else (head ++ tail.1, tail.2)

/-- Segment loop of render_video_with_ffmpeg: progress and message are
written before each invocation; a non-zero exit or timeout raises. -/
def segmentEventsEp : List ℚ → (ℕ → Bool) → ℕ → ℕ → List Event × Option Err
  | [], _, _, _ => ([], none)
  | d :: rest, res, m, i =>
    let head := [Event.setProgress (25 + 35 * i / m), Event.setMessage,
      Event.encoderInvoke (StageTag.segmentStage i d)]
    if res i then
      let tail := segmentEventsEp rest res m (i + 1)
      (head ++ tail.1, tail.2)
    else (head, some (Err.segmentFailed i))

/-- Event trace of one run of render_video_with_ffmpeg of
lovable_render_endpoint.py. The job passes through a distinct
downloading status before rendering; the subtitle burn here is fatal on
failure, and a non-2xx upload response raises and fails the job. -/
def render_video_with_ffmpeg (inp : EndpointInput) (env : EndpointEnv) : List Event :=
  if ¬ inp.hasServiceKey then failTrace Err.noServiceKey
  else
    let pre := [Event.setStatus Status.downloading, Event.setMessage]
    let n := inp.scenes.length
    let dl := downloadEventsEp inp.scenes n 0
    if dl.2.isEmpty then pre ++ dl.1 ++ failTrace Err.noValidScenes
    else
      let m := dl.2.length
      let base := pre ++ dl.1 ++ [Event.setStatus Status.rendering, Event.setMessage,
        Event.setProgress 25]
      let seg := segmentEventsEp dl.2 env.segOk m 0
      match seg.2 with
      | some e => base ++ seg.1 ++ failTrace e
      | none =>
        let base2 := base ++ seg.1 ++ [Event.setProgress 60, Event.setMessage,
          Event.encoderInvoke StageTag.concatStage]
        if ¬ env.concatOk then base2 ++ failTrace Err.concatFailed
        else
          let base3 := base2 ++ [Event.setProgress 70, Event.setMessage,
            Event.encoderInvoke StageTag.mergeStage]
          if ¬ env.mergeOk then base3 ++ failTrace Err.mergeFailed
          else
            let base4 := base3 ++ [Event.setProgress 80, Event.setMessage,
              Event.setProgress 85, Event.setMessage,
              Event.encoderInvoke StageTag.subsStage]
            if ¬ env.subsOk then base4 ++ failTrace Err.burnFailed
            else
              let base5 := base4 ++ [Event.setProgress 90, Event.setMessage,
                Event.uploadAttempt Artifact.subtitled]
              if env.uploadStatus = 200 ∨ env.uploadStatus = 201 then
                base5 ++ [Event.setStatus Status.completed, Event.setProgress 100,
                  Event.setMessage, Event.setVideoUrl UrlKind.remotePublic]
              else
                base5 ++ failTrace (Err.uploadFailed env.uploadStatus)

/-- The registry entry after one lovable_render_endpoint.py render run. -/
def runJobEp (inp : EndpointInput) (env : EndpointEnv) : JobState :=
  runTrace (render_video_with_ffmpeg inp env)

/-! ## Lemmas about cue grouping -/

lemma string_length_eq_zero_iff (s : String) : s.length = 0 ↔ s = "" := by
  constructor
  · intro h
    cases s with
    | mk data =>
      cases data with
      | nil => rfl
      | cons a l => simp [String.length] at h
  · intro h
    subst h
    rfl

lemma append_space_ne_empty (c x : String) (hc : c ≠ "") : c ++ " " ++ x ≠ "" := by
  intro h
  have hlen := congrArg String.length h
  rw [String.length_append, String.length_append] at hlen
  have hone : (" " : String).length = 1 := rfl
  have hc0 : c.length ≠ 0 := fun h0 => hc ((string_length_eq_zero_iff c).mp h0)
  have hzero : ("" : String).length = 0 := rfl
  rw [hone, hzero] at hlen
  omega

lemma spaceJoin_cons_cons (c s2 : String) (rest : List String) :
    spaceJoin (c :: s2 :: rest) = c ++ " " ++ spaceJoin (s2 :: rest) := rfl

lemma spaceJoin_ne_empty (c : String) (cs : List String) (hc : c ≠ "") :
    spaceJoin (c :: cs) ≠ "" := by
  cases cs with
  | nil => simpa [spaceJoin] using hc
  | cons s2 rest =>
    rw [spaceJoin_cons_cons]
    exact append_space_ne_empty c (spaceJoin (s2 :: rest)) hc

lemma spaceJoin_append_singleton (l : List String) (x : String)
    (hl : ∀ s ∈ l, s ≠ "") :
    spaceJoin (l ++ [x]) = joinStep (spaceJoin l) x := by
  induction l with
  | nil => simp [spaceJoin, joinStep]
  | cons c cs ih =>
    have hc : c ≠ "" := hl c (by simp)
    cases cs with
    | nil => simp [spaceJoin, joinStep, hc]
    | cons c2 cs2 =>
      have hrest : ∀ s ∈ c2 :: cs2, s ≠ "" := fun s hs => hl s (by simp [hs])
      have hne : spaceJoin (c2 :: cs2) ≠ "" :=
        spaceJoin_ne_empty c2 cs2 (hrest c2 (by simp))
      have hne2 : spaceJoin (c :: c2 :: cs2) ≠ "" := spaceJoin_ne_empty c _ hc
      calc spaceJoin ((c :: c2 :: cs2) ++ [x])
          = c ++ " " ++ spaceJoin ((c2 :: cs2) ++ [x]) := by
            simp [spaceJoin_cons_cons]
        _ = c ++ " " ++ joinStep (spaceJoin (c2 :: cs2)) x := by rw [ih hrest]
        _ = c ++ " " ++ (spaceJoin (c2 :: cs2) ++ " " ++ x) := by
            simp [joinStep, hne]
        _ = spaceJoin (c :: c2 :: cs2) ++ " " ++ x := by
            rw [spaceJoin_cons_cons]
            simp [String.append_assoc]
        _ = joinStep (spaceJoin (c :: c2 :: cs2)) x := by
            simp [joinStep, hne2]

lemma specText_nil : specText [] = "" := rfl

lemma specText_singleton (w : Word) : specText [w] = pyStrip w.word := rfl

lemma specText_append_singleton (cw : List Word) (w : Word)
    (hcw : ∀ v ∈ cw, pyStrip v.word ≠ "") :
    specText (cw ++ [w]) = joinStep (specText cw) (pyStrip w.word) := by
  unfold specText
  rw [List.map_append]
  exact spaceJoin_append_singleton _ _ (by
    intro s hs
    rcases List.mem_map.mp hs with ⟨v, hv, rfl⟩
    exact hcw v hv)

lemma group_words_aux_cons (mw mc : ℕ) (md : ℚ) (w : Word) (rest cw : List Word)
    (t : String) :
    group_words_aux mw mc md (w :: rest) cw t =
      if pyStrip w.word = "" then group_words_aux mw mc md rest cw t
      else if (mw ≤ cw.length ∨ mc < (joinStep t (pyStrip w.word)).length ∨
          md < (match cw with | [] => (0:ℚ) | c :: _ => w.endTime - c.start) ∨
          (t ≠ "" ∧ t.back ∈ terminalPunct)) ∧ cw ≠ [] then
        (match cw with
         | [] => group_words_aux mw mc md rest [w] (pyStrip w.word)
         | c :: cs => ⟨t, c.start, (lastWord c cs).endTime⟩ ::
             group_words_aux mw mc md rest [w] (pyStrip w.word))
      else group_words_aux mw mc md rest (cw ++ [w]) (joinStep t (pyStrip w.word)) :=
  rfl

lemma specGroupWords_aux_cons (mw mc : ℕ) (md : ℚ) (w : Word) (rest cw : List Word) :
    specGroupWords_aux mw mc md (w :: rest) cw =
      if pyStrip w.word = "" then specGroupWords_aux mw mc md rest cw
      else if (mw ≤ cw.length ∨
          mc < (joinStep (specText cw) (pyStrip w.word)).length ∨
          md < (match cw with | [] => (0:ℚ) | c :: _ => w.endTime - c.start) ∨
          (specText cw ≠ "" ∧ (specText cw).back ∈ terminalPunct)) ∧ cw ≠ [] then
        (match cw with
         | [] => specGroupWords_aux mw mc md rest [w]
         | c :: cs => ⟨specText (c :: cs), c.start, (lastWord c cs).endTime⟩ ::
             specGroupWords_aux mw mc md rest [w])
      else specGroupWords_aux mw mc md rest (cw ++ [w]) :=
  rfl

lemma group_words_aux_eq_spec (mw mc : ℕ) (md : ℚ) :
    ∀ (words cw : List Word), (∀ v ∈ cw, pyStrip v.word ≠ "") →
    group_words_aux mw mc md words cw (specText cw) =
      specGroupWords_aux mw mc md words cw := by
  intro words
  induction words with
  | nil =>
    intro cw _
    cases cw <;> rfl
  | cons w rest ih =>
    intro cw hcw
    rw [group_words_aux_cons, specGroupWords_aux_cons]
    by_cases hw : pyStrip w.word = ""
    · rw [if_pos hw, if_pos hw]
      exact ih cw hcw
    · rw [if_neg hw, if_neg hw]
      have hw1 : ∀ v ∈ [w], pyStrip v.word ≠ "" := by
        intro v hv
        rcases List.mem_singleton.mp hv with rfl
        exact hw
      have hw1spec : group_words_aux mw mc md rest [w] (pyStrip w.word) =
          specGroupWords_aux mw mc md rest [w] := by
        have := ih [w] hw1
        rwa [specText_singleton] at this
      cases cw with
      | nil =>
        have hfalse : ¬ ((mw ≤ ([] : List Word).length ∨
            mc < (joinStep (specText []) (pyStrip w.word)).length ∨
            md < (0:ℚ) ∨
            (specText ([] : List Word) ≠ "" ∧
              (specText ([] : List Word)).back ∈ terminalPunct)) ∧
            ([] : List Word) ≠ []) := by simp
        rw [if_neg hfalse, if_neg hfalse]
        have h3 : joinStep (specText []) (pyStrip w.word) = specText [w] := by
          simp [specText_nil, specText_singleton, joinStep]
        rw [List.nil_append, h3]
        exact ih [w] hw1
      | cons c cs =>
        by_cases hbr : mw ≤ (c :: cs).length ∨
            mc < (joinStep (specText (c :: cs)) (pyStrip w.word)).length ∨
            md < w.endTime - c.start ∨
            (specText (c :: cs) ≠ "" ∧ (specText (c :: cs)).back ∈ terminalPunct)
        · have hcond : (mw ≤ (c :: cs).length ∨
              mc < (joinStep (specText (c :: cs)) (pyStrip w.word)).length ∨
              md < (match c :: cs with | [] => (0:ℚ) | c :: _ => w.endTime - c.start) ∨
              (specText (c :: cs) ≠ "" ∧ (specText (c :: cs)).back ∈ terminalPunct)) ∧
              (c :: cs) ≠ ([] : List Word) := ⟨hbr, by simp⟩
          rw [if_pos hcond, if_pos hcond]
          rw [hw1spec]
        · have hcond : ¬ ((mw ≤ (c :: cs).length ∨
              mc < (joinStep (specText (c :: cs)) (pyStrip w.word)).length ∨
              md < (match c :: cs with | [] => (0:ℚ) | c :: _ => w.endTime - c.start) ∨
              (specText (c :: cs) ≠ "" ∧ (specText (c :: cs)).back ∈ terminalPunct)) ∧
              (c :: cs) ≠ ([] : List Word)) := by
            intro hcontra
            exact hbr hcontra.1
          rw [if_neg hcond, if_neg hcond]
          have hcw2 : ∀ v ∈ (c :: cs) ++ [w], pyStrip v.word ≠ "" := by
            intro v hv
            rcases List.mem_append.mp hv with h | h
            · exact hcw v h
            · rcases List.mem_singleton.mp h with rfl
              exact hw
          rw [← specText_append_singleton (c :: cs) w hcw]
          exact ih ((c :: cs) ++ [w]) hcw2

/-- Claim C5, counterexample. The claim states that a cue closes exactly
when one of the four break conditions trips, with the running duration
defined as the last accumulated word end minus the first word start. The
code instead compares the incoming candidate word end minus the first
word start. On the two-word input a at seconds 0 to 3.4 and b at seconds
3.4 to 3.6, the rules of the claim keep one cue of duration 3.4, while
group_words of the code breaks because 3.6 minus 0 exceeds 3.5 and yields
two cues. -/
theorem C5_counterexample :
    group_words [⟨"a", 0, 17/5⟩, ⟨"b", 17/5, 18/5⟩] =
      [⟨"a", 0, 17/5⟩, ⟨"b", 17/5, 18/5⟩] ∧
    claimGroupWords [⟨"a", 0, 17/5⟩, ⟨"b", 17/5, 18/5⟩] =
      [⟨"a b", 0, 18/5⟩] ∧
    group_words [⟨"a", 0, 17/5⟩, ⟨"b", 17/5, 18/5⟩] ≠
      claimGroupWords [⟨"a", 0, 17/5⟩, ⟨"b", 17/5, 18/5⟩] :=
  ⟨by decide, by decide, by decide⟩

/-- Claim C5, amended. Cue grouping accumulates words greedily and closes
the cue, with text the space join of its stripped words, start the first
word start and end the last word end, exactly when a break condition
trips on the next word: the cue already has at least 6 words, appending
the next word would push the text beyond 40 characters, the candidate
next word end minus the first cue word start exceeds 3.5 seconds, or the
cue text ends in terminal punctuation; a trailing unfinished cue is flushed.
For the seven words of the spec example at 0.4 seconds per word, the
max-words rule breaks before the word sentence. and the cue holding
sentence. is closed right afterwards by the final flush. -/
theorem C5_amended :
    (∀ words : List Word, group_words words = specGroupWords words) ∧
    group_words
      [⟨"Hello", 0, 2/5⟩, ⟨"world", 2/5, 4/5⟩, ⟨"this", 4/5, 6/5⟩,
       ⟨"is", 6/5, 8/5⟩, ⟨"a", 8/5, 2⟩, ⟨"test", 2, 12/5⟩,
       ⟨"sentence.", 12/5, 14/5⟩] =
      [⟨"Hello world this is a test", 0, 12/5⟩, ⟨"sentence.", 12/5, 14/5⟩] :=
  ⟨fun words => group_words_aux_eq_spec 6 40 (7/2) words [] (by simp),
   by decide⟩

/-- Claim C10. The 40-character bound only limits joining further words
onto a cue: a single word longer than 40 characters is kept whole, and
the resulting cue text exceeds 40 characters. -/
theorem C10_long_word :
    ∃ (ws : List Word) (c : Cue), group_words ws = [c] ∧
      40 < c.text.length ∧ ∃ w ∈ ws, 40 < w.word.length :=
  ⟨[⟨"Pneumonoultramicroscopicsilicovolcanoconiosis", 0, 1⟩],
   ⟨"Pneumonoultramicroscopicsilicovolcanoconiosis", 0, 1⟩,
   by decide, by decide, ⟨⟨"Pneumonoultramicroscopicsilicovolcanoconiosis", 0, 1⟩,
     by decide, by decide⟩⟩

/-! ## Lemmas about the cross-fade chain -/

lemma buildXfadeParts_aux_length (l : List ℚ) :
    ∀ (i0 : ℕ) (c : ℚ), (buildXfadeParts_aux l i0 c).length = l.length := by
  induction l with
  | nil => intro i0 c; rfl
  | cons d rest ih =>
    intro i0 c
    simp [buildXfadeParts_aux, ih]

lemma buildXfadeParts_aux_get (l : List ℚ) :
    ∀ (i0 : ℕ) (c : ℚ) (k : ℕ) (hk : k < (buildXfadeParts_aux l i0 c).length),
    (buildXfadeParts_aux l i0 c).get ⟨k, hk⟩ =
      ⟨if i0 + k = 0 then StreamLabel.inputStream 0 else StreamLabel.chained (i0 + k),
       StreamLabel.inputStream (i0 + k + 1),
       c + ((l.take (k + 1)).map segDuration).sum - 1/2,
       StreamLabel.chained (i0 + k + 1)⟩ := by
  induction l with
  | nil =>
    intro i0 c k hk
    exact absurd hk (by simp [buildXfadeParts_aux])
  | cons d rest ih =>
    intro i0 c k hk
    cases k with
    | zero =>
      simp [buildXfadeParts_aux, segDuration]
    | succ k =>
      have hk2 : k < (buildXfadeParts_aux rest (i0 + 1) (c + segDuration d)).length := by
        rw [buildXfadeParts_aux_length]
        rw [buildXfadeParts_aux_length] at hk
        simp at hk
        omega
      have hstep : (buildXfadeParts_aux (d :: rest) i0 c).get ⟨k + 1, hk⟩ =
          (buildXfadeParts_aux rest (i0 + 1) (c + segDuration d)).get ⟨k, hk2⟩ := by
        simp [buildXfadeParts_aux]
      rw [hstep, ih (i0 + 1) (c + segDuration d) k hk2]
      have h3 : ¬ (i0 + 1 + k = 0) := by omega
      have h4 : ¬ (i0 + (k + 1) = 0) := by omega
      rw [if_neg h3, if_neg h4]
      have h1 : i0 + 1 + k = i0 + (k + 1) := by omega
      rw [h1]
      congr 1
      rw [List.take_succ_cons, List.map_cons, List.sum_cons]
      ring

/-- Claim C1. For a job with at least two rendered segments, transition i
of the cross-fade filter chain has offset equal to the sum of the floored
target durations of segments 0 to i minus the fade duration 0.5, takes
the raw first input for transition 0 and the previous transition output
otherwise, consumes raw input i+1, and emits the label consumed by
transition i+1; and for the 3-segment durations 5, 4 and 6 seconds the
two offsets are 4.5 and 8.5. -/
theorem C1_xfade_offsets :
    (∀ (durs : List ℚ) (i : ℕ), 2 ≤ durs.length → i < durs.length - 1 →
      ∃ p : XfadePart, (buildXfadeParts durs).get? i = some p ∧
        p.offset = ((durs.take (i + 1)).map segDuration).sum - 1/2 ∧
        p.left = (if i = 0 then StreamLabel.inputStream 0 else StreamLabel.chained i) ∧
        p.right = StreamLabel.inputStream (i + 1) ∧
        p.out = StreamLabel.chained (i + 1)) ∧
    (buildXfadeParts [5, 4, 6]).map XfadePart.offset = [9/2, 17/2] := by
  constructor
  · intro durs i hn hi
    have hlen : i < (buildXfadeParts_aux (durs.take (durs.length - 1)) 0 0).length := by
      rw [buildXfadeParts_aux_length]
      simp
      omega
    refine ⟨(buildXfadeParts durs).get ⟨i, hlen⟩, ?_, ?_⟩
    · exact (List.get?_eq_get hlen).symm ▸ rfl
    · unfold buildXfadeParts
      rw [buildXfadeParts_aux_get (durs.take (durs.length - 1)) 0 0 i hlen]
      have htake : (durs.take (durs.length - 1)).take (i + 1) = durs.take (i + 1) := by
        rw [List.take_take]
        congr 1
        omega
      simp [htake]
  · decide

/-- Witness for C1 at the spec example: durations 5, 4 and 6 with
transition index 1. -/
theorem C1_xfade_offsets_witness :
    ∃ p : XfadePart, (buildXfadeParts [5, 4, 6]).get? 1 = some p ∧
      p.offset = ((([5, 4, 6] : List ℚ).take 2).map segDuration).sum - 1/2 ∧
      p.left = (if 1 = 0 then StreamLabel.inputStream 0 else StreamLabel.chained 1) ∧
      p.right = StreamLabel.inputStream 2 ∧
      p.out = StreamLabel.chained 2 :=
  C1_xfade_offsets.1 [5, 4, 6] 1 (by decide) (by decide)

/-- Claim C9, counterexample. The claim says an invalid or zero target
duration is coerced to the 0.5 second minimum floor, but the code maps a
zero duration to the default 10 seconds before the floor is applied: a
scene with duration 0 renders a 10 second segment, not a 0.5 second one. -/
theorem C9_counterexample :
    renderedDuration ⟨none, some "img.png", some 0⟩ = 10 ∧
    sceneFile ⟨none, some "img.png", some 0⟩ = some ⟨10, false⟩ ∧
    (10 : ℚ) ≠ 1/2 :=
  ⟨by decide, by decide, by decide⟩

/-- Claim C9, amended. The rendered duration of a scene is the parsed
target duration floored at 0.5 seconds, where parsing maps a missing or
zero duration to the default 10 seconds; so positive durations of at
least 0.5 render unchanged, positive durations below 0.5 are floored to
0.5, and missing or zero durations render as 10 seconds. -/
theorem C9_amended :
    (∀ s : Scene, 1/2 ≤ renderedDuration s) ∧
    (∀ s : Scene, s.duration = none ∨ s.duration = some 0 → renderedDuration s = 10) ∧
    (∀ (s : Scene) (q : ℚ), s.duration = some q → q ≠ 0 → 1/2 ≤ q →
      renderedDuration s = q) ∧
    (∀ (s : Scene) (q : ℚ), s.duration = some q → q ≠ 0 → q < 1/2 →
      renderedDuration s = 1/2) ∧
    (∀ (s : Scene) (f : SceneFile), sceneFile s = some f →
      segDuration f.duration = renderedDuration s) := by
  refine ⟨?_, ?_, ?_, ?_, ?_⟩
  · intro s
    exact le_max_left _ _
  · intro s hs
    rcases hs with h | h <;>
      simp [renderedDuration, segDuration, parseDuration, h] <;> norm_num
  · intro s q hq hq0 hhalf
    simp [renderedDuration, segDuration, parseDuration, hq, hq0]
    linarith
  · intro s q hq hq0 hhalf
    simp [renderedDuration, segDuration, parseDuration, hq, hq0]
    linarith
  · intro s f hf
    unfold sceneFile at hf
    by_cases hv : truthy s.video_url
    · simp [hv] at hf
      rw [← hf]
      rfl
    · by_cases hi : truthy s.image_url
      · simp [hv, hi] at hf
        rw [← hf]
        rfl
      · simp [hv, hi] at hf

/-- Witness for C9 at concrete scenes: a 3 second video scene renders
for 3 seconds and a 0.2 second image scene renders for 0.5 seconds. -/
theorem C9_amended_witness :
    renderedDuration ⟨some "v.mp4", none, some 3⟩ = 3 ∧
    renderedDuration ⟨none, some "i.png", some (1/5)⟩ = 1/2 :=
  ⟨C9_amended.2.2.1 ⟨some "v.mp4", none, some 3⟩ 3 rfl (by norm_num) (by norm_num),
   C9_amended.2.2.2.1 ⟨none, some "i.png", some (1/5)⟩ (1/5) rfl (by norm_num)
     (by norm_num)⟩

/-- Claim C4, counterexample. The claim says a cross-fade failure by
non-zero exit or by timeout falls back to plain concatenation and never
alone fails the job. In the code only a non-zero exit falls back: on an
xfade timeout of a two-scene job whose every other step would succeed,
the job ends failed with the xfade timeout error and the concat fallback
is never invoked. -/
theorem C4_counterexample :
    (runJob ⟨[⟨none, some "a.png", some 5⟩, ⟨none, some "b.png", some 5⟩], [], false⟩
      ⟨fun _ => EncResult.ok, EncResult.timeout, EncResult.ok, EncResult.ok,
        EncResult.ok, 200⟩).status = Status.failed ∧
    (runJob ⟨[⟨none, some "a.png", some 5⟩, ⟨none, some "b.png", some 5⟩], [], false⟩
      ⟨fun _ => EncResult.ok, EncResult.timeout, EncResult.ok, EncResult.ok,
        EncResult.ok, 200⟩).error = some Err.xfadeTimedOut ∧
    StageTag.concatStage ∉ encoderInvocations
      (do_render ⟨[⟨none, some "a.png", some 5⟩, ⟨none, some "b.png", some 5⟩], [], false⟩
        ⟨fun _ => EncResult.ok, EncResult.timeout, EncResult.ok, EncResult.ok,
          EncResult.ok, 200⟩) :=
  ⟨by decide, by decide, by decide⟩

/-- Claim C3, counterexample. The claim says the publisher always copies
the final video to a durable local location before any upload attempt and
that a non-2xx upload response still completes the job. In the older
do_render of backend_server_complete.py, with credentials present, no
local copy is made before the upload and a 500 upload response fails the
job. -/
theorem C3_counterexample :
    (runJobComplete ⟨[⟨none, some "i.png", some 5⟩], true⟩
      ⟨fun _ => true, true, true, 500⟩).status = Status.failed ∧
    (runJobComplete ⟨[⟨none, some "i.png", some 5⟩], true⟩
      ⟨fun _ => true, true, true, 500⟩).error = some (Err.uploadFailed 500) ∧
    (runJobComplete ⟨[⟨none, some "i.png", some 5⟩], true⟩
      ⟨fun _ => true, true, true, 500⟩).localPath = none ∧
    (∃ a, Event.uploadAttempt a ∈
      do_render_complete ⟨[⟨none, some "i.png", some 5⟩], true⟩
        ⟨fun _ => true, true, true, 500⟩) ∧
    (∀ a, Event.localBackup a ∉
      do_render_complete ⟨[⟨none, some "i.png", some 5⟩], true⟩
        ⟨fun _ => true, true, true, 500⟩) := by
  refine ⟨by decide, by decide, by decide, ⟨Artifact.merged, by decide⟩, ?_⟩
  intro a
  cases a <;> decide

/-- Claim C8, counterexample. The claim says the status field only ever
takes values among queued, rendering, completed and failed. A successful
run of render_video_with_ffmpeg of lovable_render_endpoint.py writes the
status value downloading before rendering, which is outside that set. -/
theorem C8_counterexample :
    statusWrites (render_video_with_ffmpeg ⟨[⟨some "i.png", [], 0, 5⟩], true⟩
      ⟨fun _ => true, true, true, true, 200⟩) =
      [Status.downloading, Status.rendering, Status.completed] ∧
    Status.downloading ∉
      [Status.queued, Status.rendering, Status.completed, Status.failed] :=
  ⟨by decide, by decide⟩

/-! ## Lemmas about the pipeline phases -/

lemma downloadEvents_snd (scenes : List Scene) :
    ∀ (n i : ℕ), (downloadEvents scenes n i).2 = scenes.filterMap sceneFile := by
  induction scenes with
  | nil => intro n i; rfl
  | cons s rest ih =>
    intro n i
    simp only [downloadEvents, List.filterMap_cons]
    cases h : sceneFile s <;> simp [h, ih]

lemma downloadEvents_mem (scenes : List Scene) :
    ∀ (n i : ℕ) (e : Event), e ∈ (downloadEvents scenes n i).1 →
    ∃ j, i + 1 ≤ j ∧ j ≤ i + scenes.length ∧ e = Event.setProgress (20 * j / n) := by
  induction scenes with
  | nil => intro n i e he; simp [downloadEvents] at he
  | cons s rest ih =>
    intro n i e he
    simp only [downloadEvents] at he
    cases h : sceneFile s with
    | none =>
      rw [h] at he
      rcases ih n (i + 1) e he with ⟨j, hj1, hj2, hj3⟩
      exact ⟨j, by omega, by simpa using by omega, hj3⟩
    | some f =>
      rw [h] at he
      rcases List.mem_cons.mp he with h1 | h1
      · exact ⟨i + 1, le_refl _, by simp, h1⟩
      · rcases ih n (i + 1) e h1 with ⟨j, hj1, hj2, hj3⟩
        exact ⟨j, by omega, by simp at hj2 ⊢; omega, hj3⟩

lemma segmentEvents_mem (files : List SceneFile) :
    ∀ (res : ℕ → EncResult) (m i : ℕ) (e : Event),
    e ∈ (segmentEvents files res m i).1 →
    (∃ j, i + 1 ≤ j ∧ j ≤ i + files.length ∧
      e = Event.setProgress (20 + 50 * j / m)) ∨
    e = Event.setMessage ∨
    (∃ j d, e = Event.encoderInvoke (StageTag.segmentStage j d)) := by
  induction files with
  | nil => intro res m i e he; simp [segmentEvents] at he
  | cons f rest ih =>
    intro res m i e he
    simp only [segmentEvents] at he
    cases h : res i with
    | timeout =>
      rw [h] at he
      rcases List.mem_singleton.mp he with rfl
      exact Or.inr (Or.inr ⟨i, _, rfl⟩)
    | fail =>
      rw [h] at he
      rcases List.mem_singleton.mp he with rfl
      exact Or.inr (Or.inr ⟨i, _, rfl⟩)
    | ok =>
      rw [h] at he
      rcases List.mem_cons.mp he with h1 | h1
      · exact Or.inr (Or.inr ⟨i, _, h1⟩)
      rcases List.mem_cons.mp h1 with h2 | h2
      · exact Or.inl ⟨i + 1, le_refl _, by simp, h2⟩
      rcases List.mem_cons.mp h2 with h3 | h3
      · exact Or.inr (Or.inl h3)
      · rcases ih res m (i + 1) e h3 with h4 | h4 | h4
        · rcases h4 with ⟨j, hj1, hj2, hj3⟩
          exact Or.inl ⟨j, by omega, by simp at hj2 ⊢; omega, hj3⟩
        · exact Or.inr (Or.inl h4)
        · exact Or.inr (Or.inr h4)

lemma segmentEvents_none_iff (files : List SceneFile) :
    ∀ (res : ℕ → EncResult) (m i : ℕ),
    (segmentEvents files res m i).2 = none ↔
      ∀ k < files.length, res (i + k) = EncResult.ok := by
  induction files with
  | nil => intro res m i; simp [segmentEvents]
  | cons f rest ih =>
    intro res m i
    simp only [segmentEvents]
    cases h : res i with
    | timeout => simp [h]; exact ⟨0, by simp, by simp [h]⟩
    | fail => simp [h]; exact ⟨0, by simp, by simp [h]⟩
    | ok =>
      simp only [h]
      rw [ih res m (i + 1)]
      constructor
      · intro hall k hk
        cases k with
        | zero => simpa using h
        | succ k =>
          have := hall k (by simpa using Nat.lt_of_succ_lt_succ hk)
          simpa [Nat.add_assoc, Nat.add_comm 1 k] using this
      · intro hall k hk
        have := hall (k + 1) (by simpa using Nat.succ_lt_succ hk)
        simpa [Nat.add_assoc, Nat.add_comm 1 k] using this

lemma assemblyEvents_mem (m : ℕ) (env : Env) (e : Event)
    (he : e ∈ (assemblyEvents m env).1) :
    e = Event.encoderInvoke StageTag.xfadeStage ∨
    e = Event.encoderInvoke StageTag.concatStage := by
  by_cases hm : m = 1
  · simp [assemblyEvents, hm] at he
  · simp only [assemblyEvents, if_neg hm] at he
    cases h : env.xfadeResult with
    | ok => rw [h] at he; rcases List.mem_singleton.mp he with rfl; exact Or.inl rfl
    | timeout => rw [h] at he; rcases List.mem_singleton.mp he with rfl; exact Or.inl rfl
    | fail =>
      rw [h] at he
      cases henv : env.concatResult <;> rw [henv] at he <;>
        rcases List.mem_cons.mp he with h1 | h1 <;>
        first
          | exact Or.inl h1
          | (rcases List.mem_singleton.mp h1 with rfl; exact Or.inr rfl)

lemma mergeEvents_fst (env : Env) :
    (mergeEvents env).1 = [Event.encoderInvoke StageTag.mergeStage] := by
  cases h : env.mergeResult <;> simp [mergeEvents, h]

lemma mergeEvents_none_iff (env : Env) :
    (mergeEvents env).2 = none ↔ env.mergeResult = EncResult.ok := by
  cases h : env.mergeResult <;> simp [mergeEvents, h]

lemma subsEvents_mem (wts : List Word) (env : Env) (e : Event)
    (he : e ∈ (subsEvents wts env).1) :
    e = Event.setMessage ∨ e = Event.encoderInvoke StageTag.subsStage := by
  by_cases h1 : wts.isEmpty
  · simp [subsEvents, h1] at he
  · by_cases h2 : (group_words wts).isEmpty
    · simp [subsEvents, h1, h2] at he
      exact Or.inl he
    · simp only [subsEvents, if_neg h1, if_neg h2] at he
      cases h : env.subsResult <;> rw [h] at he <;>
        rcases List.mem_cons.mp he with h3 | h3 <;>
        first
          | exact Or.inl h3
          | (rcases List.mem_singleton.mp h3 with rfl; exact Or.inr rfl)

lemma subsEvents_merged (wts : List Word) (env : Env)
    (h : env.subsResult ≠ EncResult.ok) :
    (subsEvents wts env).2 = Artifact.merged := by
  by_cases h1 : wts.isEmpty
  · simp [subsEvents, h1]
  · by_cases h2 : (group_words wts).isEmpty
    · simp [subsEvents, h1, h2]
    · simp only [subsEvents, if_neg h1, if_neg h2]
      cases henv : env.subsResult with
      | ok => exact absurd henv h
      | fail => rfl
      | timeout => rfl

/-! ## Lemmas about traces and registry state -/

lemma state_after_failTrace (st : JobState) (e : Err) :
    (failTrace e).foldl applyEvent st =
      { st with status := Status.failed, error := some e } := rfl

lemma state_after_doneTrace (st : JobState) :
    doneTrace.foldl applyEvent st =
      { st with status := Status.completed, progress := 100 } := rfl

lemma foldl_neutral (l : List Event)
    (h : ∀ e ∈ l, e = Event.setMessage ∨ ∃ t, e = Event.encoderInvoke t) :
    ∀ st : JobState, l.foldl applyEvent st = st := by
  induction l with
  | nil => intro st; rfl
  | cons e rest ih =>
    intro st
    have he := h e (by simp)
    have hrest : ∀ e ∈ rest, e = Event.setMessage ∨ ∃ t, e = Event.encoderInvoke t :=
      fun e he => h e (by simp [he])
    rcases he with rfl | ⟨t, rfl⟩ <;> exact ih hrest st

lemma foldl_progress_only (l : List Event)
    (h : ∀ e ∈ l, (∃ p, e = Event.setProgress p) ∨ e = Event.setMessage ∨
      ∃ t, e = Event.encoderInvoke t) :
    ∀ st : JobState, (l.foldl applyEvent st).status = st.status ∧
      (l.foldl applyEvent st).videoUrl = st.videoUrl ∧
      (l.foldl applyEvent st).error = st.error ∧
      (l.foldl applyEvent st).localPath = st.localPath ∧
      (l.foldl applyEvent st).uploadError = st.uploadError := by
  induction l with
  | nil => intro st; exact ⟨rfl, rfl, rfl, rfl, rfl⟩
  | cons e rest ih =>
    intro st
    have he := h e (by simp)
    have hrest : ∀ e ∈ rest, (∃ p, e = Event.setProgress p) ∨ e = Event.setMessage ∨
        ∃ t, e = Event.encoderInvoke t :=
      fun e he => h e (by simp [he])
    rcases he with ⟨p, rfl⟩ | rfl | ⟨t, rfl⟩ <;>
      simpa [applyEvent] using ih hrest _

lemma foldl_progress_mem (l : List Event) :
    ∀ st : JobState, (l.foldl applyEvent st).progress = st.progress ∨
      (l.foldl applyEvent st).progress ∈ progressWrites l := by
  induction l with
  | nil => intro st; exact Or.inl rfl
  | cons e rest ih =>
    intro st
    simp only [List.foldl_cons]
    rcases ih (applyEvent st e) with h | h
    · cases e with
      | setProgress p =>
        refine Or.inr ?_
        rw [h]
        exact List.mem_cons_self _ _
      | setStatus s => exact Or.inl (by simpa [applyEvent] using h)
      | setMessage => exact Or.inl (by simpa [applyEvent] using h)
      | encoderInvoke t => exact Or.inl (by simpa [applyEvent] using h)
      | localBackup a => exact Or.inl (by simpa [applyEvent] using h)
      | uploadAttempt a => exact Or.inl (by simpa [applyEvent] using h)
      | setVideoUrl u => exact Or.inl (by simpa [applyEvent] using h)
      | setUploadError => exact Or.inl (by simpa [applyEvent] using h)
      | setError e2 => exact Or.inl (by simpa [applyEvent] using h)
    · refine Or.inr ?_
      cases e <;> first
        | exact List.mem_cons_of_mem _ h
        | exact h

lemma statusWrites_append (a b : List Event) :
    statusWrites (a ++ b) = statusWrites a ++ statusWrites b :=
  List.filterMap_append a b _

lemma progressWrites_append (a b : List Event) :
    progressWrites (a ++ b) = progressWrites a ++ progressWrites b :=
  List.filterMap_append a b _

lemma encoderInvocations_append (a b : List Event) :
    encoderInvocations (a ++ b) = encoderInvocations a ++ encoderInvocations b :=
  List.filterMap_append a b _

lemma statusWrites_eq_nil_of (l : List Event)
    (h : ∀ e ∈ l, ∀ s, e ≠ Event.setStatus s) : statusWrites l = [] := by
  rw [statusWrites, List.filterMap_eq_nil_iff]
  intro e he
  cases e with
  | setStatus s => exact absurd rfl (h _ he s)
  | setProgress p => rfl
  | setMessage => rfl
  | encoderInvoke t => rfl
  | localBackup a => rfl
  | uploadAttempt a => rfl
  | setVideoUrl u => rfl
  | setUploadError => rfl
  | setError e2 => rfl

/-! ## Branch shapes of do_render -/

lemma do_render_eq_noValid (inp : JobInput) (env : Env)
    (h : inp.scenes.filterMap sceneFile = []) :
    do_render inp env =
      preTrace ++ (downloadEvents inp.scenes (max 1 inp.scenes.length) 0).1 ++
        failTrace Err.noValidScenes := by
  simp only [do_render, downloadEvents_snd, h, List.isEmpty_nil, if_true]

lemma do_render_eq_segFail (inp : JobInput) (env : Env) (e : Err)
    (hne : inp.scenes.filterMap sceneFile ≠ [])
    (hseg : (segmentEvents (inp.scenes.filterMap sceneFile) env.segResults
      (inp.scenes.filterMap sceneFile).length 0).2 = some e) :
    do_render inp env =
      preTrace ++ (downloadEvents inp.scenes (max 1 inp.scenes.length) 0).1 ++
        Event.setMessage :: (segmentEvents (inp.scenes.filterMap sceneFile)
          env.segResults (inp.scenes.filterMap sceneFile).length 0).1 ++
        failTrace e := by
  have hie : (inp.scenes.filterMap sceneFile).isEmpty = false := by
    cases h : inp.scenes.filterMap sceneFile with
    | nil => exact absurd h hne
    | cons a l => rfl
  simp only [do_render, downloadEvents_snd, hie, Bool.false_eq_true, if_false, hseg]

lemma do_render_eq_asmFail (inp : JobInput) (env : Env) (e : Err)
    (hne : inp.scenes.filterMap sceneFile ≠ [])
    (hseg : (segmentEvents (inp.scenes.filterMap sceneFile) env.segResults
      (inp.scenes.filterMap sceneFile).length 0).2 = none)
    (hasm : (assemblyEvents (inp.scenes.filterMap sceneFile).length env).2 = some e) :
    do_render inp env =
      preTrace ++ (downloadEvents inp.scenes (max 1 inp.scenes.length) 0).1 ++
        Event.setMessage :: (segmentEvents (inp.scenes.filterMap sceneFile)
          env.segResults (inp.scenes.filterMap sceneFile).length 0).1 ++
        Event.setMessage :: (assemblyEvents (inp.scenes.filterMap sceneFile).length env).1 ++
        failTrace e := by
  have hie : (inp.scenes.filterMap sceneFile).isEmpty = false := by
    cases h : inp.scenes.filterMap sceneFile with
    | nil => exact absurd h hne
    | cons a l => rfl
  simp only [do_render, downloadEvents_snd, hie, Bool.false_eq_true, if_false, hseg, hasm]

lemma do_render_eq_mrgFail (inp : JobInput) (env : Env) (e : Err)
    (hne : inp.scenes.filterMap sceneFile ≠ [])
    (hseg : (segmentEvents (inp.scenes.filterMap sceneFile) env.segResults
      (inp.scenes.filterMap sceneFile).length 0).2 = none)
    (hasm : (assemblyEvents (inp.scenes.filterMap sceneFile).length env).2 = none)
    (hmrg : (mergeEvents env).2 = some e) :
    do_render inp env =
      preTrace ++ (downloadEvents inp.scenes (max 1 inp.scenes.length) 0).1 ++
        Event.setMessage :: (segmentEvents (inp.scenes.filterMap sceneFile)
          env.segResults (inp.scenes.filterMap sceneFile).length 0).1 ++
        Event.setMessage :: (assemblyEvents (inp.scenes.filterMap sceneFile).length env).1 ++
        Event.setProgress 75 :: Event.setMessage :: (mergeEvents env).1 ++
        failTrace e := by
  have hie : (inp.scenes.filterMap sceneFile).isEmpty = false := by
    cases h : inp.scenes.filterMap sceneFile with
    | nil => exact absurd h hne
    | cons a l => rfl
  simp only [do_render, downloadEvents_snd, hie, Bool.false_eq_true, if_false, hseg,
    hasm, hmrg]

lemma do_render_eq_success (inp : JobInput) (env : Env)
    (hne : inp.scenes.filterMap sceneFile ≠ [])
    (hseg : (segmentEvents (inp.scenes.filterMap sceneFile) env.segResults
      (inp.scenes.filterMap sceneFile).length 0).2 = none)
    (hasm : (assemblyEvents (inp.scenes.filterMap sceneFile).length env).2 = none)
    (hmrg : (mergeEvents env).2 = none) :
    do_render inp env =
      preTrace ++ (downloadEvents inp.scenes (max 1 inp.scenes.length) 0).1 ++
        Event.setMessage :: (segmentEvents (inp.scenes.filterMap sceneFile)
          env.segResults (inp.scenes.filterMap sceneFile).length 0).1 ++
        Event.setMessage :: (assemblyEvents (inp.scenes.filterMap sceneFile).length env).1 ++
        Event.setProgress 75 :: Event.setMessage :: (mergeEvents env).1 ++
        Event.setProgress 82 :: (subsEvents inp.word_timestamps env).1 ++
        Event.setProgress 90 ::
        publishEvents (subsEvents inp.word_timestamps env).2 inp.hasCreds
          env.uploadStatus ++ doneTrace := by
  have hie : (inp.scenes.filterMap sceneFile).isEmpty = false := by
    cases h : inp.scenes.filterMap sceneFile with
    | nil => exact absurd h hne
    | cons a l => rfl
  simp only [do_render, downloadEvents_snd, hie, Bool.false_eq_true, if_false, hseg,
    hasm, hmrg]

lemma basicEvent_append {a b : List Event}
    (ha : ∀ e ∈ a, basicEvent e) (hb : ∀ e ∈ b, basicEvent e) :
    ∀ e ∈ a ++ b, basicEvent e := by
  intro e he
  rcases List.mem_append.mp he with h | h
  · exact ha e h
  · exact hb e h

lemma basicEvent_cons {ev : Event} {b : List Event}
    (ha : basicEvent ev) (hb : ∀ e ∈ b, basicEvent e) :
    ∀ e ∈ ev :: b, basicEvent e := by
  intro e he
  rcases List.mem_cons.mp he with rfl | h
  · exact ha
  · exact hb e h

lemma basicEvent_preTrace : ∀ e ∈ preTrace, basicEvent e := by
  intro e he
  simp only [preTrace, List.mem_cons, List.not_mem_nil, or_false] at he
  rcases he with rfl | rfl | rfl | rfl
  · exact Or.inr (Or.inr (Or.inr ⟨_, rfl⟩))
  · exact Or.inr (Or.inl rfl)
  · exact Or.inr (Or.inl rfl)
  · exact Or.inr (Or.inl rfl)

lemma basicEvent_dl (scenes : List Scene) (n i : ℕ) :
    ∀ e ∈ (downloadEvents scenes n i).1, basicEvent e := by
  intro e he
  rcases downloadEvents_mem scenes n i e he with ⟨j, _, _, rfl⟩
  exact Or.inl ⟨_, rfl⟩

lemma basicEvent_seg (files : List SceneFile) (res : ℕ → EncResult) (m i : ℕ) :
    ∀ e ∈ (segmentEvents files res m i).1, basicEvent e := by
  intro e he
  rcases segmentEvents_mem files res m i e he with ⟨j, _, _, rfl⟩ | rfl | ⟨j, d, rfl⟩
  · exact Or.inl ⟨_, rfl⟩
  · exact Or.inr (Or.inl rfl)
  · exact Or.inr (Or.inr (Or.inl ⟨_, rfl⟩))

lemma basicEvent_asm (m : ℕ) (env : Env) :
    ∀ e ∈ (assemblyEvents m env).1, basicEvent e := by
  intro e he
  rcases assemblyEvents_mem m env e he with rfl | rfl <;>
    exact Or.inr (Or.inr (Or.inl ⟨_, rfl⟩))

lemma basicEvent_mrg (env : Env) : ∀ e ∈ (mergeEvents env).1, basicEvent e := by
  intro e he
  rw [mergeEvents_fst] at he
  rcases List.mem_singleton.mp he with rfl
  exact Or.inr (Or.inr (Or.inl ⟨_, rfl⟩))

lemma basicEvent_subs (wts : List Word) (env : Env) :
    ∀ e ∈ (subsEvents wts env).1, basicEvent e := by
  intro e he
  rcases subsEvents_mem wts env e he with rfl | rfl
  · exact Or.inr (Or.inl rfl)
  · exact Or.inr (Or.inr (Or.inl ⟨_, rfl⟩))

lemma foldl_basic_fields (l : List Event) (h : ∀ e ∈ l, basicEvent e) :
    ∀ st : JobState, (l.foldl applyEvent st).videoUrl = st.videoUrl ∧
      (l.foldl applyEvent st).error = st.error ∧
      (l.foldl applyEvent st).localPath = st.localPath ∧
      (l.foldl applyEvent st).uploadError = st.uploadError := by
  induction l with
  | nil => intro st; exact ⟨rfl, rfl, rfl, rfl⟩
  | cons e rest ih =>
    intro st
    have he := h e (by simp)
    have hrest : ∀ e ∈ rest, basicEvent e := fun e he => h e (by simp [he])
    simp only [List.foldl_cons]
    rcases he with ⟨p, rfl⟩ | rfl | ⟨t, rfl⟩ | ⟨s, rfl⟩ <;>
      simpa [applyEvent] using ih hrest _

lemma publish_done_fields (a : Artifact) (creds : Bool) (us : ℕ) (st : JobState) :
    ((publishEvents a creds us ++ doneTrace).foldl applyEvent st).status =
        Status.completed ∧
      ((publishEvents a creds us ++ doneTrace).foldl applyEvent st).progress = 100 ∧
      ((publishEvents a creds us ++ doneTrace).foldl applyEvent st).localPath = some a ∧
      ((publishEvents a creds us ++ doneTrace).foldl applyEvent st).error = st.error ∧
      ((publishEvents a creds us ++ doneTrace).foldl applyEvent st).videoUrl =
        some (if creds then
          (if us = 200 ∨ us = 201 then UrlKind.remotePublic else UrlKind.vpsLocal)
        else UrlKind.vpsLocal) ∧
      ((publishEvents a creds us ++ doneTrace).foldl applyEvent st).uploadError =
        (if creds then (if us = 200 ∨ us = 201 then st.uploadError else true)
          else st.uploadError) := by
  cases creds with
  | false =>
    simp [publishEvents, doneTrace, applyEvent, List.foldl_append]
  | true =>
    by_cases hus : us = 200 ∨ us = 201 <;>
      simp [publishEvents, doneTrace, applyEvent, List.foldl_append, hus]

lemma runTrace_fail_fields (A : List Event) (e : Err)
    (hA : ∀ ev ∈ A, basicEvent ev) :
    (runTrace (A ++ failTrace e)).status = Status.failed ∧
    (runTrace (A ++ failTrace e)).error = some e ∧
    (runTrace (A ++ failTrace e)).videoUrl = none ∧
    (runTrace (A ++ failTrace e)).localPath = none := by
  rw [runTrace, List.foldl_append, state_after_failTrace]
  obtain ⟨hv, _, hl, _⟩ := foldl_basic_fields A hA initState
  exact ⟨rfl, rfl, by simpa using hv, by simpa using hl⟩

lemma do_render_eq_success2 (inp : JobInput) (env : Env)
    (hne : inp.scenes.filterMap sceneFile ≠ [])
    (hseg : (segmentEvents (inp.scenes.filterMap sceneFile) env.segResults
      (inp.scenes.filterMap sceneFile).length 0).2 = none)
    (hasm : (assemblyEvents (inp.scenes.filterMap sceneFile).length env).2 = none)
    (hmrg : (mergeEvents env).2 = none) :
    do_render inp env =
      (preTrace ++ (downloadEvents inp.scenes (max 1 inp.scenes.length) 0).1 ++
        Event.setMessage :: (segmentEvents (inp.scenes.filterMap sceneFile)
          env.segResults (inp.scenes.filterMap sceneFile).length 0).1 ++
        Event.setMessage :: (assemblyEvents (inp.scenes.filterMap sceneFile).length env).1 ++
        Event.setProgress 75 :: Event.setMessage :: (mergeEvents env).1 ++
        Event.setProgress 82 :: (subsEvents inp.word_timestamps env).1 ++
        [Event.setProgress 90]) ++
      (publishEvents (subsEvents inp.word_timestamps env).2 inp.hasCreds
        env.uploadStatus ++ doneTrace) := by
  rw [do_render_eq_success inp env hne hseg hasm hmrg]
  simp only [List.append_assoc, List.cons_append, List.nil_append]

lemma basicEvent_successPrefix (inp : JobInput) (env : Env) :
    ∀ ev ∈ (preTrace ++
      (downloadEvents inp.scenes (max 1 inp.scenes.length) 0).1 ++
      Event.setMessage :: (segmentEvents (inp.scenes.filterMap sceneFile)
        env.segResults (inp.scenes.filterMap sceneFile).length 0).1 ++
      Event.setMessage :: (assemblyEvents (inp.scenes.filterMap sceneFile).length env).1 ++
      Event.setProgress 75 :: Event.setMessage :: (mergeEvents env).1 ++
      Event.setProgress 82 :: (subsEvents inp.word_timestamps env).1 ++
      [Event.setProgress 90]), basicEvent ev := by
  have h1 := basicEvent_append basicEvent_preTrace
    (basicEvent_dl inp.scenes (max 1 inp.scenes.length) 0)
  have h2 := basicEvent_cons (Or.inr (Or.inl rfl))
    (basicEvent_seg (inp.scenes.filterMap sceneFile) env.segResults
      (inp.scenes.filterMap sceneFile).length 0)
  have h3 := basicEvent_cons (Or.inr (Or.inl rfl))
    (basicEvent_asm (inp.scenes.filterMap sceneFile).length env)
  have h4 := basicEvent_cons (Or.inl ⟨75, rfl⟩)
    (basicEvent_cons (Or.inr (Or.inl rfl)) (basicEvent_mrg env))
  have h5 := basicEvent_cons (Or.inl ⟨82, rfl⟩)
    (basicEvent_subs inp.word_timestamps env)
  have h6 : ∀ e ∈ [Event.setProgress 90], basicEvent e := by
    intro e he
    rcases List.mem_singleton.mp he with rfl
    exact Or.inl ⟨90, rfl⟩
  exact basicEvent_append (basicEvent_append (basicEvent_append
    (basicEvent_append (basicEvent_append h1 h2) h3) h4) h5) h6

lemma runJob_success_fields (inp : JobInput) (env : Env)
    (hne : inp.scenes.filterMap sceneFile ≠ [])
    (hseg : (segmentEvents (inp.scenes.filterMap sceneFile) env.segResults
      (inp.scenes.filterMap sceneFile).length 0).2 = none)
    (hasm : (assemblyEvents (inp.scenes.filterMap sceneFile).length env).2 = none)
    (hmrg : (mergeEvents env).2 = none) :
    (runJob inp env).status = Status.completed ∧
    (runJob inp env).progress = 100 ∧
    (runJob inp env).localPath = some (subsEvents inp.word_timestamps env).2 ∧
    (runJob inp env).error = none ∧
    (runJob inp env).videoUrl =
      some (if inp.hasCreds then
        (if env.uploadStatus = 200 ∨ env.uploadStatus = 201 then UrlKind.remotePublic
          else UrlKind.vpsLocal)
      else UrlKind.vpsLocal) ∧
    (runJob inp env).uploadError =
      (if inp.hasCreds then
        (if env.uploadStatus = 200 ∨ env.uploadStatus = 201 then false else true)
      else false) := by
  have hsh2 := do_render_eq_success2 inp env hne hseg hasm hmrg
  have hAbasic := basicEvent_successPrefix inp env
  rw [runJob, hsh2, runTrace, List.foldl_append]
  obtain ⟨hst, hpr, hlp, herr, hvu, hue⟩ :=
    publish_done_fields (subsEvents inp.word_timestamps env).2 inp.hasCreds
      env.uploadStatus (List.foldl applyEvent initState _)
  obtain ⟨_, he0, _, hu0⟩ := foldl_basic_fields _ hAbasic initState
  refine ⟨hst, hpr, hlp, ?_, hvu, ?_⟩
  · rw [herr, he0]
    rfl
  · rw [hue, hu0]
    rfl

/-! ## Observation lemmas per phase -/

lemma statusWrites_dl (scenes : List Scene) (n i : ℕ) :
    statusWrites (downloadEvents scenes n i).1 = [] := by
  refine statusWrites_eq_nil_of _ ?_
  intro e he s
  rcases downloadEvents_mem scenes n i e he with ⟨j, _, _, rfl⟩
  exact fun h => by cases h

lemma statusWrites_seg (files : List SceneFile) (res : ℕ → EncResult) (m i : ℕ) :
    statusWrites (segmentEvents files res m i).1 = [] := by
  refine statusWrites_eq_nil_of _ ?_
  intro e he s
  rcases segmentEvents_mem files res m i e he with ⟨j, _, _, rfl⟩ | rfl | ⟨j, d, rfl⟩ <;>
    exact fun h => by cases h

lemma statusWrites_asm (m : ℕ) (env : Env) :
    statusWrites (assemblyEvents m env).1 = [] := by
  refine statusWrites_eq_nil_of _ ?_
  intro e he s
  rcases assemblyEvents_mem m env e he with rfl | rfl <;> exact fun h => by cases h

lemma statusWrites_mrg (env : Env) : statusWrites (mergeEvents env).1 = [] := by
  rw [mergeEvents_fst]
  rfl

lemma statusWrites_subs (wts : List Word) (env : Env) :
    statusWrites (subsEvents wts env).1 = [] := by
  refine statusWrites_eq_nil_of _ ?_
  intro e he s
  rcases subsEvents_mem wts env e he with rfl | rfl <;> exact fun h => by cases h

lemma statusWrites_publish (a : Artifact) (creds : Bool) (us : ℕ) :
    statusWrites (publishEvents a creds us) = [] := by
  cases creds with
  | false => rfl
  | true => by_cases h : us = 200 ∨ us = 201 <;> simp [publishEvents, h, statusWrites]

lemma progressWrites_asm (m : ℕ) (env : Env) :
    progressWrites (assemblyEvents m env).1 = [] := by
  rw [progressWrites, List.filterMap_eq_nil_iff]
  intro e he
  rcases assemblyEvents_mem m env e he with rfl | rfl <;> rfl

lemma progressWrites_mrg (env : Env) : progressWrites (mergeEvents env).1 = [] := by
  rw [mergeEvents_fst]
  rfl

lemma progressWrites_subs (wts : List Word) (env : Env) :
    progressWrites (subsEvents wts env).1 = [] := by
  rw [progressWrites, List.filterMap_eq_nil_iff]
  intro e he
  rcases subsEvents_mem wts env e he with rfl | rfl <;> rfl

lemma progressWrites_publish (a : Artifact) (creds : Bool) (us : ℕ) :
    progressWrites (publishEvents a creds us) = [] := by
  cases creds with
  | false => rfl
  | true => by_cases h : us = 200 ∨ us = 201 <;> simp [publishEvents, h, progressWrites]

lemma encoderInvocations_dl (scenes : List Scene) (n i : ℕ) :
    encoderInvocations (downloadEvents scenes n i).1 = [] := by
  rw [encoderInvocations, List.filterMap_eq_nil_iff]
  intro e he
  rcases downloadEvents_mem scenes n i e he with ⟨j, _, _, rfl⟩
  rfl

lemma progressWrites_dl_mem (scenes : List Scene) (n i : ℕ) (p : ℕ)
    (hp : p ∈ progressWrites (downloadEvents scenes n i).1) :
    ∃ j, i + 1 ≤ j ∧ j ≤ i + scenes.length ∧ p = 20 * j / n := by
  rcases List.mem_filterMap.mp hp with ⟨e, he, hme⟩
  rcases downloadEvents_mem scenes n i e he with ⟨j, hj1, hj2, rfl⟩
  refine ⟨j, hj1, hj2, ?_⟩
  simpa using hme.symm

lemma progressWrites_seg_mem (files : List SceneFile) (res : ℕ → EncResult)
    (m i : ℕ) (p : ℕ) (hp : p ∈ progressWrites (segmentEvents files res m i).1) :
    ∃ j, i + 1 ≤ j ∧ j ≤ i + files.length ∧ p = 20 + 50 * j / m := by
  rcases List.mem_filterMap.mp hp with ⟨e, he, hme⟩
  rcases segmentEvents_mem files res m i e he with ⟨j, hj1, hj2, rfl⟩ | rfl | ⟨j, d, rfl⟩
  · exact ⟨j, hj1, hj2, by simpa using hme.symm⟩
  · cases hme
  · cases hme

lemma sorted_append_pivot {l1 l2 : List ℕ} (b : ℕ)
    (h1 : l1.Sorted (· ≤ ·)) (h2 : l2.Sorted (· ≤ ·))
    (hb1 : ∀ x ∈ l1, x ≤ b) (hb2 : ∀ y ∈ l2, b ≤ y) :
    (l1 ++ l2).Sorted (· ≤ ·) := by
  rw [List.Sorted, List.pairwise_append]
  exact ⟨h1, h2, fun x hx y hy => le_trans (hb1 x hx) (hb2 y hy)⟩

lemma progressWrites_dl_sorted (scenes : List Scene) :
    ∀ (n i : ℕ), (progressWrites (downloadEvents scenes n i).1).Sorted (· ≤ ·) := by
  induction scenes with
  | nil => intro n i; simp [downloadEvents, progressWrites]
  | cons s rest ih =>
    intro n i
    simp only [downloadEvents]
    cases h : sceneFile s with
    | none => exact ih n (i + 1)
    | some f =>
      simp only [progressWrites, List.filterMap_cons]
      rw [List.Sorted, List.pairwise_cons]
      constructor
      · intro p hp
        rcases progressWrites_dl_mem rest n (i + 1) p hp with ⟨j, hj1, _, rfl⟩
        exact Nat.div_le_div_right (Nat.mul_le_mul_left 20 (by omega))
      · exact ih n (i + 1)

lemma progressWrites_seg_sorted (files : List SceneFile) :
    ∀ (res : ℕ → EncResult) (m i : ℕ),
    (progressWrites (segmentEvents files res m i).1).Sorted (· ≤ ·) := by
  induction files with
  | nil => intro res m i; simp [segmentEvents, progressWrites]
  | cons f rest ih =>
    intro res m i
    simp only [segmentEvents]
    cases h : res i with
    | timeout => simp [progressWrites]
    | fail => simp [progressWrites]
    | ok =>
      simp only [progressWrites, List.filterMap_cons]
      rw [List.Sorted, List.pairwise_cons]
      constructor
      · intro p hp
        rcases progressWrites_seg_mem rest res m (i + 1) p hp with ⟨j, hj1, _, rfl⟩
        exact Nat.add_le_add_left
          (Nat.div_le_div_right (Nat.mul_le_mul_left 50 (by omega))) 20
      · exact ih res m (i + 1)

lemma assemblyEvents_none_iff (m : ℕ) (env : Env) :
    (assemblyEvents m env).2 = none ↔ assemblyOk m env := by
  unfold assemblyOk
  by_cases hm : m = 1
  · simp [assemblyEvents, hm]
  · simp only [assemblyEvents, if_neg hm]
    cases hx : env.xfadeResult with
    | ok => simp [hm, hx]
    | timeout => simp [hm, hx]
    | fail =>
      cases hc : env.concatResult with
      | ok => simp [hm, hx, hc]
      | fail => simp [hm, hx, hc]
      | timeout => simp [hm, hx, hc]

lemma mem_encoderInvocations (t : StageTag) (l : List Event)
    (h : Event.encoderInvoke t ∈ l) : t ∈ encoderInvocations l :=
  List.mem_filterMap.mpr ⟨_, h, rfl⟩

/-- Claim C6. A scene with neither a usable video nor image reference
yields no scene file and is skipped without failing the job: a job with
at least one usable scene and otherwise successful stages completes even
when other scenes were skipped, while a job whose scenes all lack assets
fails with the no-valid-scenes error and spawns no encoder subprocess at
all. -/
theorem C6_no_valid_scenes :
    (∀ s : Scene, truthy s.video_url = false → truthy s.image_url = false →
      sceneFile s = none) ∧
    (∀ (inp : JobInput) (env : Env),
      inp.scenes.filterMap sceneFile ≠ [] →
      (∀ k < (inp.scenes.filterMap sceneFile).length, env.segResults k = EncResult.ok) →
      assemblyOk (inp.scenes.filterMap sceneFile).length env →
      env.mergeResult = EncResult.ok →
      (runJob inp env).status = Status.completed) ∧
    (∀ (inp : JobInput) (env : Env), (∀ s ∈ inp.scenes, sceneFile s = none) →
      (runJob inp env).status = Status.failed ∧
      (runJob inp env).error = some Err.noValidScenes ∧
      encoderInvocations (do_render inp env) = []) := by
  refine ⟨?_, ?_, ?_⟩
  · intro s hv hi
    simp [sceneFile, hv, hi]
  · intro inp env hne hseg hasm hmrg
    have hseg2 : (segmentEvents (inp.scenes.filterMap sceneFile) env.segResults
        (inp.scenes.filterMap sceneFile).length 0).2 = none :=
      (segmentEvents_none_iff _ _ _ _).mpr (fun k hk => by simpa using hseg k hk)
    have hasm2 := (assemblyEvents_none_iff _ _).mpr hasm
    have hmrg2 := (mergeEvents_none_iff env).mpr hmrg
    exact (runJob_success_fields inp env hne hseg2 hasm2 hmrg2).1
  · intro inp env hall
    have hfm : inp.scenes.filterMap sceneFile = [] := by
      rw [List.filterMap_eq_nil_iff]
      exact hall
    have hsh := do_render_eq_noValid inp env hfm
    have hbasic : ∀ ev ∈ preTrace ++
        (downloadEvents inp.scenes (max 1 inp.scenes.length) 0).1, basicEvent ev :=
      basicEvent_append basicEvent_preTrace (basicEvent_dl _ _ _)
    have hf := runTrace_fail_fields _ Err.noValidScenes hbasic
    refine ⟨?_, ?_, ?_⟩
    · rw [runJob, hsh]
      exact hf.1
    · rw [runJob, hsh]
      exact hf.2.1
    · rw [hsh, encoderInvocations_append, encoderInvocations_append]
      rw [encoderInvocations_dl]
      rfl

/-- Witness for C6: a job whose second scene lacks assets still completes,
and a job whose only scene lacks assets fails with the no-valid-scenes
error before any encoder invocation. -/
theorem C6_no_valid_scenes_witness :
    (runJob ⟨[⟨none, some "i.png", some 5⟩, ⟨none, none, some 4⟩], [], false⟩
      ⟨fun _ => EncResult.ok, EncResult.ok, EncResult.ok, EncResult.ok,
        EncResult.ok, 200⟩).status = Status.completed ∧
    ((runJob ⟨[⟨none, none, some 5⟩], [], false⟩
      ⟨fun _ => EncResult.ok, EncResult.ok, EncResult.ok, EncResult.ok,
        EncResult.ok, 200⟩).status = Status.failed ∧
     (runJob ⟨[⟨none, none, some 5⟩], [], false⟩
      ⟨fun _ => EncResult.ok, EncResult.ok, EncResult.ok, EncResult.ok,
        EncResult.ok, 200⟩).error = some Err.noValidScenes ∧
     encoderInvocations (do_render ⟨[⟨none, none, some 5⟩], [], false⟩
      ⟨fun _ => EncResult.ok, EncResult.ok, EncResult.ok, EncResult.ok,
        EncResult.ok, 200⟩) = []) :=
  ⟨C6_no_valid_scenes.2.1 _ _ (by decide) (fun k hk => rfl) (Or.inr (Or.inl rfl)) rfl,
   C6_no_valid_scenes.2.2 _ _ (by decide)⟩

/-- Claim C2. When the subtitle burn invocation times out or exits
non-zero while every earlier stage succeeded, the job still completes and
publishes the pre-subtitle audio-merged artifact; and the subtitle stage
is the only one treated this way: a segment failure, an assembly failure
not rescued by the fallback, and an audio merge failure each fail the
job. -/
theorem C2_subtitle_failure_swallowed :
    (∀ (inp : JobInput) (env : Env),
      inp.scenes.filterMap sceneFile ≠ [] →
      (∀ k < (inp.scenes.filterMap sceneFile).length, env.segResults k = EncResult.ok) →
      assemblyOk (inp.scenes.filterMap sceneFile).length env →
      env.mergeResult = EncResult.ok →
      inp.word_timestamps ≠ [] →
      (group_words inp.word_timestamps).isEmpty = false →
      env.subsResult ≠ EncResult.ok →
      (runJob inp env).status = Status.completed ∧
      (runJob inp env).localPath = some Artifact.merged ∧
      (runJob inp env).videoUrl ≠ none) ∧
    (∀ (inp : JobInput) (env : Env),
      (∃ k, k < (inp.scenes.filterMap sceneFile).length ∧
        env.segResults k ≠ EncResult.ok) →
      (runJob inp env).status = Status.failed) ∧
    (∀ (inp : JobInput) (env : Env),
      inp.scenes.filterMap sceneFile ≠ [] →
      (∀ k < (inp.scenes.filterMap sceneFile).length, env.segResults k = EncResult.ok) →
      ¬ assemblyOk (inp.scenes.filterMap sceneFile).length env →
      (runJob inp env).status = Status.failed) ∧
    (∀ (inp : JobInput) (env : Env),
      inp.scenes.filterMap sceneFile ≠ [] →
      (∀ k < (inp.scenes.filterMap sceneFile).length, env.segResults k = EncResult.ok) →
      assemblyOk (inp.scenes.filterMap sceneFile).length env →
      env.mergeResult ≠ EncResult.ok →
      (runJob inp env).status = Status.failed) := by
  refine ⟨?_, ?_, ?_, ?_⟩
  · intro inp env hne hseg hasm hmrg _hwts _hgrp hsubs
    have hseg2 : (segmentEvents (inp.scenes.filterMap sceneFile) env.segResults
        (inp.scenes.filterMap sceneFile).length 0).2 = none :=
      (segmentEvents_none_iff _ _ _ _).mpr (fun k hk => by simpa using hseg k hk)
    have hasm2 := (assemblyEvents_none_iff _ _).mpr hasm
    have hmrg2 := (mergeEvents_none_iff env).mpr hmrg
    obtain ⟨h1, _, h3, _, h5, _⟩ := runJob_success_fields inp env hne hseg2 hasm2 hmrg2
    refine ⟨h1, ?_, ?_⟩
    · rw [h3, subsEvents_merged inp.word_timestamps env hsubs]
    · rw [h5]
      simp
  · intro inp env ⟨k, hk, hres⟩
    have hne : inp.scenes.filterMap sceneFile ≠ [] := by
      intro h
      rw [h] at hk
      simp at hk
    cases hsegc : (segmentEvents (inp.scenes.filterMap sceneFile) env.segResults
        (inp.scenes.filterMap sceneFile).length 0).2 with
    | none =>
      have := (segmentEvents_none_iff _ _ _ _).mp hsegc k hk
      simp at this
      exact absurd this hres
    | some e =>
      have hsh := do_render_eq_segFail inp env e hne hsegc
      have hbasic : ∀ ev ∈ preTrace ++
          (downloadEvents inp.scenes (max 1 inp.scenes.length) 0).1 ++
          Event.setMessage :: (segmentEvents (inp.scenes.filterMap sceneFile)
            env.segResults (inp.scenes.filterMap sceneFile).length 0).1,
          basicEvent ev :=
        basicEvent_append
          (basicEvent_append basicEvent_preTrace (basicEvent_dl _ _ _))
          (basicEvent_cons (Or.inr (Or.inl rfl)) (basicEvent_seg _ _ _ _))
      rw [runJob, hsh]
      exact (runTrace_fail_fields _ e hbasic).1
  · intro inp env hne hseg hasm
    have hseg2 : (segmentEvents (inp.scenes.filterMap sceneFile) env.segResults
        (inp.scenes.filterMap sceneFile).length 0).2 = none :=
      (segmentEvents_none_iff _ _ _ _).mpr (fun k hk => by simpa using hseg k hk)
    cases hasmc : (assemblyEvents (inp.scenes.filterMap sceneFile).length env).2 with
    | none => exact absurd ((assemblyEvents_none_iff _ _).mp hasmc) hasm
    | some e =>
      have hsh := do_render_eq_asmFail inp env e hne hseg2 hasmc
      have hbasic : ∀ ev ∈ preTrace ++
          (downloadEvents inp.scenes (max 1 inp.scenes.length) 0).1 ++
          Event.setMessage :: (segmentEvents (inp.scenes.filterMap sceneFile)
            env.segResults (inp.scenes.filterMap sceneFile).length 0).1 ++
          Event.setMessage ::
            (assemblyEvents (inp.scenes.filterMap sceneFile).length env).1,
          basicEvent ev :=
        basicEvent_append
          (basicEvent_append
            (basicEvent_append basicEvent_preTrace (basicEvent_dl _ _ _))
            (basicEvent_cons (Or.inr (Or.inl rfl)) (basicEvent_seg _ _ _ _)))
          (basicEvent_cons (Or.inr (Or.inl rfl)) (basicEvent_asm _ _))
      rw [runJob, hsh]
      exact (runTrace_fail_fields _ e hbasic).1
  · intro inp env hne hseg hasm hmrg
    have hseg2 : (segmentEvents (inp.scenes.filterMap sceneFile) env.segResults
        (inp.scenes.filterMap sceneFile).length 0).2 = none :=
      (segmentEvents_none_iff _ _ _ _).mpr (fun k hk => by simpa using hseg k hk)
    have hasm2 := (assemblyEvents_none_iff _ _).mpr hasm
    cases hmrgc : (mergeEvents env).2 with
    | none => exact absurd ((mergeEvents_none_iff env).mp hmrgc) hmrg
    | some e =>
      have hsh := do_render_eq_mrgFail inp env e hne hseg2 hasm2 hmrgc
      have hbasic : ∀ ev ∈ preTrace ++
          (downloadEvents inp.scenes (max 1 inp.scenes.length) 0).1 ++
          Event.setMessage :: (segmentEvents (inp.scenes.filterMap sceneFile)
            env.segResults (inp.scenes.filterMap sceneFile).length 0).1 ++
          Event.setMessage ::
            (assemblyEvents (inp.scenes.filterMap sceneFile).length env).1 ++
          Event.setProgress 75 :: Event.setMessage :: (mergeEvents env).1,
          basicEvent ev :=
        basicEvent_append
          (basicEvent_append
            (basicEvent_append
              (basicEvent_append basicEvent_preTrace (basicEvent_dl _ _ _))
              (basicEvent_cons (Or.inr (Or.inl rfl)) (basicEvent_seg _ _ _ _)))
            (basicEvent_cons (Or.inr (Or.inl rfl)) (basicEvent_asm _ _)))
          (basicEvent_cons (Or.inl ⟨75, rfl⟩)
            (basicEvent_cons (Or.inr (Or.inl rfl)) (basicEvent_mrg _)))
      rw [runJob, hsh]
      exact (runTrace_fail_fields _ e hbasic).1

/-- Witness for C2: a one-scene job with word timestamps whose subtitle
burn exits non-zero completes and backs up the merged artifact, while the
same job with a failing segment encoder fails. -/
theorem C2_subtitle_failure_swallowed_witness :
    ((runJob ⟨[⟨none, some "i.png", some 5⟩], [⟨"Hi", 0, 1⟩], false⟩
      ⟨fun _ => EncResult.ok, EncResult.ok, EncResult.ok, EncResult.ok,
        EncResult.fail, 200⟩).status = Status.completed ∧
     (runJob ⟨[⟨none, some "i.png", some 5⟩], [⟨"Hi", 0, 1⟩], false⟩
      ⟨fun _ => EncResult.ok, EncResult.ok, EncResult.ok, EncResult.ok,
        EncResult.fail, 200⟩).localPath = some Artifact.merged ∧
     (runJob ⟨[⟨none, some "i.png", some 5⟩], [⟨"Hi", 0, 1⟩], false⟩
      ⟨fun _ => EncResult.ok, EncResult.ok, EncResult.ok, EncResult.ok,
        EncResult.fail, 200⟩).videoUrl ≠ none) ∧
    (runJob ⟨[⟨none, some "i.png", some 5⟩], [], false⟩
      ⟨fun _ => EncResult.fail, EncResult.ok, EncResult.ok, EncResult.ok,
        EncResult.ok, 200⟩).status = Status.failed :=
  ⟨C2_subtitle_failure_swallowed.1 _ _ (by decide) (fun k hk => rfl)
      (Or.inr (Or.inl rfl)) rfl (by decide) (by decide) (by decide),
   C2_subtitle_failure_swallowed.2.1 _ _ ⟨0, by decide, by decide⟩⟩

lemma runJob_asmFail_failed (inp : JobInput) (env : Env)
    (hne : inp.scenes.filterMap sceneFile ≠ [])
    (hseg : ∀ k < (inp.scenes.filterMap sceneFile).length,
      env.segResults k = EncResult.ok)
    (hasm : ¬ assemblyOk (inp.scenes.filterMap sceneFile).length env) :
    (runJob inp env).status = Status.failed := by
  have hseg2 : (segmentEvents (inp.scenes.filterMap sceneFile) env.segResults
      (inp.scenes.filterMap sceneFile).length 0).2 = none :=
    (segmentEvents_none_iff _ _ _ _).mpr (fun k hk => by simpa using hseg k hk)
  cases hasmc : (assemblyEvents (inp.scenes.filterMap sceneFile).length env).2 with
  | none => exact absurd ((assemblyEvents_none_iff _ _).mp hasmc) hasm
  | some e =>
    have hsh := do_render_eq_asmFail inp env e hne hseg2 hasmc
    have hbasic : ∀ ev ∈ preTrace ++
        (downloadEvents inp.scenes (max 1 inp.scenes.length) 0).1 ++
        Event.setMessage :: (segmentEvents (inp.scenes.filterMap sceneFile)
          env.segResults (inp.scenes.filterMap sceneFile).length 0).1 ++
        Event.setMessage ::
          (assemblyEvents (inp.scenes.filterMap sceneFile).length env).1,
        basicEvent ev :=
      basicEvent_append
        (basicEvent_append
          (basicEvent_append basicEvent_preTrace (basicEvent_dl _ _ _))
          (basicEvent_cons (Or.inr (Or.inl rfl)) (basicEvent_seg _ _ _ _)))
        (basicEvent_cons (Or.inr (Or.inl rfl)) (basicEvent_asm _ _))
    rw [runJob, hsh]
    exact (runTrace_fail_fields _ e hbasic).1

lemma mem_encoderInvocations_iff (t : StageTag) (l : List Event) :
    t ∈ encoderInvocations l ↔ Event.encoderInvoke t ∈ l := by
  constructor
  · intro h
    rcases List.mem_filterMap.mp h with ⟨ev, hev, hm⟩
    cases ev with
    | encoderInvoke t2 =>
      simp at hm
      rw [hm] at hev
      exact hev
    | setStatus s => simp at hm
    | setProgress p => simp at hm
    | setMessage => simp at hm
    | localBackup a => simp at hm
    | uploadAttempt a => simp at hm
    | setVideoUrl u => simp at hm
    | setUploadError => simp at hm
    | setError e => simp at hm
  · exact mem_encoderInvocations t l

lemma concat_not_in_dl (scenes : List Scene) (n i : ℕ) :
    Event.encoderInvoke StageTag.concatStage ∉ (downloadEvents scenes n i).1 := by
  intro h
  rcases downloadEvents_mem scenes n i _ h with ⟨j, _, _, he⟩
  cases he

lemma concat_not_in_seg (files : List SceneFile) (res : ℕ → EncResult) (m i : ℕ) :
    Event.encoderInvoke StageTag.concatStage ∉ (segmentEvents files res m i).1 := by
  intro h
  rcases segmentEvents_mem files res m i _ h with ⟨j, _, _, he⟩ | he | ⟨j, d, he⟩ <;>
    simp at he

/-- Claim C4, amended. Only a non-zero xfade exit triggers the concat
fallback: in that case, with the fallback and the rest succeeding, the job
completes and the fallback encoder is invoked, while a failing fallback
fails the job; an xfade timeout fails the job directly without ever
invoking the fallback. -/
theorem C4_amended :
    (∀ (inp : JobInput) (env : Env),
      2 ≤ (inp.scenes.filterMap sceneFile).length →
      (∀ k < (inp.scenes.filterMap sceneFile).length, env.segResults k = EncResult.ok) →
      env.xfadeResult = EncResult.fail →
      env.concatResult = EncResult.ok →
      env.mergeResult = EncResult.ok →
      (runJob inp env).status = Status.completed ∧
      StageTag.concatStage ∈ encoderInvocations (do_render inp env)) ∧
    (∀ (inp : JobInput) (env : Env),
      2 ≤ (inp.scenes.filterMap sceneFile).length →
      (∀ k < (inp.scenes.filterMap sceneFile).length, env.segResults k = EncResult.ok) →
      env.xfadeResult = EncResult.fail →
      env.concatResult ≠ EncResult.ok →
      (runJob inp env).status = Status.failed) ∧
    (∀ (inp : JobInput) (env : Env),
      2 ≤ (inp.scenes.filterMap sceneFile).length →
      (∀ k < (inp.scenes.filterMap sceneFile).length, env.segResults k = EncResult.ok) →
      env.xfadeResult = EncResult.timeout →
      (runJob inp env).status = Status.failed ∧
      StageTag.concatStage ∉ encoderInvocations (do_render inp env)) := by
  refine ⟨?_, ?_, ?_⟩
  · intro inp env hm hseg hx hc hmrg
    have hne : inp.scenes.filterMap sceneFile ≠ [] := by
      intro h
      rw [h] at hm
      simp at hm
    have hm1 : ¬ (inp.scenes.filterMap sceneFile).length = 1 := by omega
    have hseg2 : (segmentEvents (inp.scenes.filterMap sceneFile) env.segResults
        (inp.scenes.filterMap sceneFile).length 0).2 = none :=
      (segmentEvents_none_iff _ _ _ _).mpr (fun k hk => by simpa using hseg k hk)
    have hasm2 : (assemblyEvents (inp.scenes.filterMap sceneFile).length env).2 = none :=
      (assemblyEvents_none_iff _ _).mpr (Or.inr (Or.inr ⟨hx, hc⟩))
    have hmrg2 := (mergeEvents_none_iff env).mpr hmrg
    refine ⟨(runJob_success_fields inp env hne hseg2 hasm2 hmrg2).1, ?_⟩
    have hasmfst : (assemblyEvents (inp.scenes.filterMap sceneFile).length env).1 =
        [Event.encoderInvoke StageTag.xfadeStage,
         Event.encoderInvoke StageTag.concatStage] := by
      simp [assemblyEvents, hm1, hx, hc]
    rw [mem_encoderInvocations_iff, do_render_eq_success inp env hne hseg2 hasm2 hmrg2]
    simp [hasmfst]
  · intro inp env hm hseg hx hc
    have hne : inp.scenes.filterMap sceneFile ≠ [] := by
      intro h
      rw [h] at hm
      simp at hm
    have hasm : ¬ assemblyOk (inp.scenes.filterMap sceneFile).length env := by
      intro h
      rcases h with h | h | h
      · omega
      · rw [hx] at h
        cases h
      · exact hc h.2
    exact runJob_asmFail_failed inp env hne hseg hasm
  · intro inp env hm hseg hx
    have hne : inp.scenes.filterMap sceneFile ≠ [] := by
      intro h
      rw [h] at hm
      simp at hm
    have hm1 : ¬ (inp.scenes.filterMap sceneFile).length = 1 := by omega
    have hseg2 : (segmentEvents (inp.scenes.filterMap sceneFile) env.segResults
        (inp.scenes.filterMap sceneFile).length 0).2 = none :=
      (segmentEvents_none_iff _ _ _ _).mpr (fun k hk => by simpa using hseg k hk)
    have hasmc : (assemblyEvents (inp.scenes.filterMap sceneFile).length env).2 =
        some Err.xfadeTimedOut := by
      simp [assemblyEvents, hm1, hx]
    have hasmfst : (assemblyEvents (inp.scenes.filterMap sceneFile).length env).1 =
        [Event.encoderInvoke StageTag.xfadeStage] := by
      simp [assemblyEvents, hm1, hx]
    have hsh := do_render_eq_asmFail inp env Err.xfadeTimedOut hne hseg2 hasmc
    constructor
    · have hbasic : ∀ ev ∈ preTrace ++
          (downloadEvents inp.scenes (max 1 inp.scenes.length) 0).1 ++
          Event.setMessage :: (segmentEvents (inp.scenes.filterMap sceneFile)
            env.segResults (inp.scenes.filterMap sceneFile).length 0).1 ++
          Event.setMessage ::
            (assemblyEvents (inp.scenes.filterMap sceneFile).length env).1,
          basicEvent ev :=
        basicEvent_append
          (basicEvent_append
            (basicEvent_append basicEvent_preTrace (basicEvent_dl _ _ _))
            (basicEvent_cons (Or.inr (Or.inl rfl)) (basicEvent_seg _ _ _ _)))
          (basicEvent_cons (Or.inr (Or.inl rfl)) (basicEvent_asm _ _))
      rw [runJob, hsh]
      exact (runTrace_fail_fields _ _ hbasic).1
    · rw [mem_encoderInvocations_iff, hsh]
      intro hev
      rcases List.mem_append.mp hev with h | h
      swap
      · simp [failTrace] at h
      rcases List.mem_append.mp h with h | h
      swap
      · rw [hasmfst] at h
        simp at h
      rcases List.mem_append.mp h with h | h
      swap
      · rcases List.mem_cons.mp h with h | h
        · cases h
        · exact concat_not_in_seg _ _ _ _ h
      rcases List.mem_append.mp h with h | h
      · simp [preTrace] at h
      · exact concat_not_in_dl _ _ _ h

/-- Witness for C4: a two-scene job with a non-zero xfade exit and a
working fallback completes, while the same job with an xfade timeout
fails without the fallback being invoked. -/
theorem C4_amended_witness :
    ((runJob ⟨[⟨none, some "a.png", some 5⟩, ⟨none, some "b.png", some 4⟩], [], false⟩
      ⟨fun _ => EncResult.ok, EncResult.fail, EncResult.ok, EncResult.ok,
        EncResult.ok, 200⟩).status = Status.completed ∧
     StageTag.concatStage ∈ encoderInvocations
      (do_render ⟨[⟨none, some "a.png", some 5⟩, ⟨none, some "b.png", some 4⟩], [], false⟩
        ⟨fun _ => EncResult.ok, EncResult.fail, EncResult.ok, EncResult.ok,
          EncResult.ok, 200⟩)) ∧
    ((runJob ⟨[⟨none, some "a.png", some 5⟩, ⟨none, some "b.png", some 4⟩], [], false⟩
      ⟨fun _ => EncResult.ok, EncResult.timeout, EncResult.ok, EncResult.ok,
        EncResult.ok, 200⟩).status = Status.failed ∧
     StageTag.concatStage ∉ encoderInvocations
      (do_render ⟨[⟨none, some "a.png", some 5⟩, ⟨none, some "b.png", some 4⟩], [], false⟩
        ⟨fun _ => EncResult.ok, EncResult.timeout, EncResult.ok, EncResult.ok,
          EncResult.ok, 200⟩)) :=
  ⟨C4_amended.1 _ _ (by decide) (fun k hk => rfl) rfl rfl rfl,
   C4_amended.2.2 _ _ (by decide) (fun k hk => rfl) rfl⟩

/-! ## Lemmas about the backup-before-upload scan -/

lemma bbu_true (l : List Event) : backupBeforeUpload l true = true := by
  induction l with
  | nil => rfl
  | cons e rest ih => cases e <;> simp [backupBeforeUpload, ih]

lemma bbu_no_upload (l : List Event) (h : ∀ a, Event.uploadAttempt a ∉ l) :
    ∀ b, backupBeforeUpload l b = true := by
  induction l with
  | nil => intro b; rfl
  | cons e rest ih =>
    intro b
    have hrest : ∀ a, Event.uploadAttempt a ∉ rest :=
      fun a ha => h a (List.mem_cons_of_mem _ ha)
    cases e with
    | uploadAttempt a => exact absurd (List.mem_cons_self _ _) (h a)
    | localBackup a => simpa [backupBeforeUpload] using bbu_true rest
    | setStatus s => simpa [backupBeforeUpload] using ih hrest b
    | setProgress p => simpa [backupBeforeUpload] using ih hrest b
    | setMessage => simpa [backupBeforeUpload] using ih hrest b
    | encoderInvoke t => simpa [backupBeforeUpload] using ih hrest b
    | setVideoUrl u => simpa [backupBeforeUpload] using ih hrest b
    | setUploadError => simpa [backupBeforeUpload] using ih hrest b
    | setError e2 => simpa [backupBeforeUpload] using ih hrest b

lemma bbu_append_no_upload (l1 : List Event) (h : ∀ a, Event.uploadAttempt a ∉ l1)
    (l2 : List Event) (h2 : ∀ b, backupBeforeUpload l2 b = true) :
    ∀ b, backupBeforeUpload (l1 ++ l2) b = true := by
  induction l1 with
  | nil => intro b; exact h2 b
  | cons e rest ih =>
    intro b
    have hrest : ∀ a, Event.uploadAttempt a ∉ rest :=
      fun a ha => h a (List.mem_cons_of_mem _ ha)
    cases e with
    | uploadAttempt a => exact absurd (List.mem_cons_self _ _) (h a)
    | localBackup a => simpa [backupBeforeUpload] using ih hrest true
    | setStatus s => simpa [backupBeforeUpload] using ih hrest b
    | setProgress p => simpa [backupBeforeUpload] using ih hrest b
    | setMessage => simpa [backupBeforeUpload] using ih hrest b
    | encoderInvoke t => simpa [backupBeforeUpload] using ih hrest b
    | setVideoUrl u => simpa [backupBeforeUpload] using ih hrest b
    | setUploadError => simpa [backupBeforeUpload] using ih hrest b
    | setError e2 => simpa [backupBeforeUpload] using ih hrest b

lemma no_upload_of_basic (l : List Event) (h : ∀ e ∈ l, basicEvent e) :
    ∀ a, Event.uploadAttempt a ∉ l := by
  intro a ha
  rcases h _ ha with ⟨p, he⟩ | he | ⟨t, he⟩ | ⟨s, he⟩ <;> cases he

lemma no_upload_failTrace (e : Err) : ∀ a, Event.uploadAttempt a ∉ failTrace e := by
  intro a ha
  simp [failTrace] at ha

lemma bbu_publish_done (a : Artifact) (creds : Bool) (us : ℕ) :
    ∀ b, backupBeforeUpload (publishEvents a creds us ++ doneTrace) b = true := by
  intro b
  cases creds with
  | false => simp [publishEvents, doneTrace, backupBeforeUpload]
  | true =>
    by_cases h : us = 200 ∨ us = 201 <;>
      simp [publishEvents, doneTrace, backupBeforeUpload, h]

lemma basicEvent_prefix0 (inp : JobInput) :
    ∀ ev ∈ preTrace ++ (downloadEvents inp.scenes (max 1 inp.scenes.length) 0).1,
    basicEvent ev :=
  basicEvent_append basicEvent_preTrace (basicEvent_dl _ _ _)

lemma basicEvent_prefix1 (inp : JobInput) (env : Env) :
    ∀ ev ∈ preTrace ++ (downloadEvents inp.scenes (max 1 inp.scenes.length) 0).1 ++
      Event.setMessage :: (segmentEvents (inp.scenes.filterMap sceneFile)
        env.segResults (inp.scenes.filterMap sceneFile).length 0).1, basicEvent ev :=
  basicEvent_append (basicEvent_prefix0 inp)
    (basicEvent_cons (Or.inr (Or.inl rfl)) (basicEvent_seg _ _ _ _))

lemma basicEvent_prefix2 (inp : JobInput) (env : Env) :
    ∀ ev ∈ preTrace ++ (downloadEvents inp.scenes (max 1 inp.scenes.length) 0).1 ++
      Event.setMessage :: (segmentEvents (inp.scenes.filterMap sceneFile)
        env.segResults (inp.scenes.filterMap sceneFile).length 0).1 ++
      Event.setMessage :: (assemblyEvents (inp.scenes.filterMap sceneFile).length env).1,
    basicEvent ev :=
  basicEvent_append (basicEvent_prefix1 inp env)
    (basicEvent_cons (Or.inr (Or.inl rfl)) (basicEvent_asm _ _))

lemma basicEvent_prefix3 (inp : JobInput) (env : Env) :
    ∀ ev ∈ preTrace ++ (downloadEvents inp.scenes (max 1 inp.scenes.length) 0).1 ++
      Event.setMessage :: (segmentEvents (inp.scenes.filterMap sceneFile)
        env.segResults (inp.scenes.filterMap sceneFile).length 0).1 ++
      Event.setMessage :: (assemblyEvents (inp.scenes.filterMap sceneFile).length env).1 ++
      Event.setProgress 75 :: Event.setMessage :: (mergeEvents env).1, basicEvent ev :=
  basicEvent_append (basicEvent_prefix2 inp env)
    (basicEvent_cons (Or.inl ⟨75, rfl⟩)
      (basicEvent_cons (Or.inr (Or.inl rfl)) (basicEvent_mrg env)))

/-- Claim C3, amended. In the current pipeline of backend_server.py every
upload attempt is preceded by the unconditional local backup copy, and a
non-2xx upload response still completes the job with the locally served
video URL, the backup path recorded and only a non-fatal upload error
noted; the older generation in backend_server_complete.py skips the
backup and fails the job on a non-2xx response. -/
theorem C3_amended :
    (∀ (inp : JobInput) (env : Env),
      backupBeforeUpload (do_render inp env) false = true) ∧
    (∀ (inp : JobInput) (env : Env),
      inp.scenes.filterMap sceneFile ≠ [] →
      (∀ k < (inp.scenes.filterMap sceneFile).length, env.segResults k = EncResult.ok) →
      assemblyOk (inp.scenes.filterMap sceneFile).length env →
      env.mergeResult = EncResult.ok →
      inp.hasCreds = true →
      env.uploadStatus ≠ 200 → env.uploadStatus ≠ 201 →
      (runJob inp env).status = Status.completed ∧
      (runJob inp env).videoUrl = some UrlKind.vpsLocal ∧
      (runJob inp env).localPath ≠ none ∧
      (runJob inp env).uploadError = true) := by
  constructor
  · intro inp env
    by_cases hfm : inp.scenes.filterMap sceneFile = []
    · rw [do_render_eq_noValid inp env hfm]
      refine bbu_no_upload _ ?_ false
      intro a ha
      rcases List.mem_append.mp ha with h | h
      · exact no_upload_of_basic _ (basicEvent_prefix0 inp) a h
      · exact no_upload_failTrace _ a h
    · cases hsegc : (segmentEvents (inp.scenes.filterMap sceneFile) env.segResults
          (inp.scenes.filterMap sceneFile).length 0).2 with
      | some e =>
        rw [do_render_eq_segFail inp env e hfm hsegc]
        refine bbu_no_upload _ ?_ false
        intro a ha
        rcases List.mem_append.mp ha with h | h
        · exact no_upload_of_basic _ (basicEvent_prefix1 inp env) a h
        · exact no_upload_failTrace _ a h
      | none =>
        cases hasmc : (assemblyEvents (inp.scenes.filterMap sceneFile).length env).2 with
        | some e =>
          rw [do_render_eq_asmFail inp env e hfm hsegc hasmc]
          refine bbu_no_upload _ ?_ false
          intro a ha
          rcases List.mem_append.mp ha with h | h
          · exact no_upload_of_basic _ (basicEvent_prefix2 inp env) a h
          · exact no_upload_failTrace _ a h
        | none =>
          cases hmrgc : (mergeEvents env).2 with
          | some e =>
            rw [do_render_eq_mrgFail inp env e hfm hsegc hasmc hmrgc]
            refine bbu_no_upload _ ?_ false
            intro a ha
            rcases List.mem_append.mp ha with h | h
            · exact no_upload_of_basic _ (basicEvent_prefix3 inp env) a h
            · exact no_upload_failTrace _ a h
          | none =>
            rw [do_render_eq_success2 inp env hfm hsegc hasmc hmrgc]
            exact bbu_append_no_upload _
              (no_upload_of_basic _ (basicEvent_successPrefix inp env)) _
              (bbu_publish_done _ _ _) false
  · intro inp env hne hseg hasm hmrg hcreds h200 h201
    have hseg2 : (segmentEvents (inp.scenes.filterMap sceneFile) env.segResults
        (inp.scenes.filterMap sceneFile).length 0).2 = none :=
      (segmentEvents_none_iff _ _ _ _).mpr (fun k hk => by simpa using hseg k hk)
    have hasm2 := (assemblyEvents_none_iff _ _).mpr hasm
    have hmrg2 := (mergeEvents_none_iff env).mpr hmrg
    obtain ⟨h1, _, h3, _, h5, h6⟩ := runJob_success_fields inp env hne hseg2 hasm2 hmrg2
    have hcond : ¬ (env.uploadStatus = 200 ∨ env.uploadStatus = 201) := by
      intro h
      rcases h with h | h
      · exact h200 h
      · exact h201 h
    refine ⟨h1, ?_, ?_, ?_⟩
    · rw [h5, hcreds]
      simp [hcond]
    · rw [h3]
      simp
    · rw [h6, hcreds]
      simp [hcond]

/-- Witness for C3: a one-scene job with credentials whose upload returns
500 completes with the locally served URL and a recorded backup. -/
theorem C3_amended_witness :
    backupBeforeUpload (do_render ⟨[⟨none, some "i.png", some 5⟩], [], true⟩
      ⟨fun _ => EncResult.ok, EncResult.ok, EncResult.ok, EncResult.ok,
        EncResult.ok, 500⟩) false = true ∧
    ((runJob ⟨[⟨none, some "i.png", some 5⟩], [], true⟩
      ⟨fun _ => EncResult.ok, EncResult.ok, EncResult.ok, EncResult.ok,
        EncResult.ok, 500⟩).status = Status.completed ∧
     (runJob ⟨[⟨none, some "i.png", some 5⟩], [], true⟩
      ⟨fun _ => EncResult.ok, EncResult.ok, EncResult.ok, EncResult.ok,
        EncResult.ok, 500⟩).videoUrl = some UrlKind.vpsLocal ∧
     (runJob ⟨[⟨none, some "i.png", some 5⟩], [], true⟩
      ⟨fun _ => EncResult.ok, EncResult.ok, EncResult.ok, EncResult.ok,
        EncResult.ok, 500⟩).localPath ≠ none ∧
     (runJob ⟨[⟨none, some "i.png", some 5⟩], [], true⟩
      ⟨fun _ => EncResult.ok, EncResult.ok, EncResult.ok, EncResult.ok,
        EncResult.ok, 500⟩).uploadError = true) :=
  ⟨C3_amended.1 _ _,
   C3_amended.2 _ _ (by decide) (fun k hk => rfl) (Or.inl (by decide)) rfl rfl
     (by decide) (by decide)⟩

lemma statusWrites_nil : statusWrites [] = [] := rfl

lemma statusWrites_cons_status (s : Status) (l : List Event) :
    statusWrites (Event.setStatus s :: l) = s :: statusWrites l := rfl

lemma statusWrites_cons_progress (p : ℕ) (l : List Event) :
    statusWrites (Event.setProgress p :: l) = statusWrites l := rfl

lemma statusWrites_cons_msg (l : List Event) :
    statusWrites (Event.setMessage :: l) = statusWrites l := rfl

lemma statusWrites_cons_invoke (t : StageTag) (l : List Event) :
    statusWrites (Event.encoderInvoke t :: l) = statusWrites l := rfl

lemma statusWrites_cons_backup (a : Artifact) (l : List Event) :
    statusWrites (Event.localBackup a :: l) = statusWrites l := rfl

lemma statusWrites_cons_upload (a : Artifact) (l : List Event) :
    statusWrites (Event.uploadAttempt a :: l) = statusWrites l := rfl

lemma statusWrites_cons_url (u : UrlKind) (l : List Event) :
    statusWrites (Event.setVideoUrl u :: l) = statusWrites l := rfl

lemma statusWrites_cons_uerr (l : List Event) :
    statusWrites (Event.setUploadError :: l) = statusWrites l := rfl

lemma statusWrites_cons_err (e : Err) (l : List Event) :
    statusWrites (Event.setError e :: l) = statusWrites l := rfl

lemma statusWrites_preTrace : statusWrites preTrace = [Status.rendering] := rfl

lemma statusWrites_failTrace (e : Err) :
    statusWrites (failTrace e) = [Status.failed] := rfl

lemma statusWrites_doneTrace : statusWrites doneTrace = [Status.completed] := rfl

lemma progressWrites_nil : progressWrites [] = [] := rfl

lemma progressWrites_cons_status (s : Status) (l : List Event) :
    progressWrites (Event.setStatus s :: l) = progressWrites l := rfl

lemma progressWrites_cons_progress (p : ℕ) (l : List Event) :
    progressWrites (Event.setProgress p :: l) = p :: progressWrites l := rfl

lemma progressWrites_cons_msg (l : List Event) :
    progressWrites (Event.setMessage :: l) = progressWrites l := rfl

lemma progressWrites_cons_invoke (t : StageTag) (l : List Event) :
    progressWrites (Event.encoderInvoke t :: l) = progressWrites l := rfl

lemma progressWrites_preTrace : progressWrites preTrace = [] := rfl

lemma progressWrites_failTrace (e : Err) : progressWrites (failTrace e) = [] := rfl

lemma progressWrites_doneTrace : progressWrites doneTrace = [100] := rfl

lemma pw_dl_ub (scenes : List Scene) (p : ℕ)
    (hp : p ∈ progressWrites (downloadEvents scenes (max 1 scenes.length) 0).1) :
    p ≤ 20 := by
  rcases progressWrites_dl_mem scenes (max 1 scenes.length) 0 p hp with ⟨j, _, hj2, rfl⟩
  have hn : 0 < max 1 scenes.length := by omega
  calc 20 * j / max 1 scenes.length
      ≤ 20 * max 1 scenes.length / max 1 scenes.length :=
        Nat.div_le_div_right (Nat.mul_le_mul_left 20 (by omega))
    _ = 20 := Nat.mul_div_cancel 20 hn

lemma pw_seg_bounds (files : List SceneFile) (res : ℕ → EncResult) (p : ℕ)
    (hp : p ∈ progressWrites (segmentEvents files res files.length 0).1) :
    20 ≤ p ∧ p ≤ 70 := by
  rcases progressWrites_seg_mem files res files.length 0 p hp with ⟨j, hj1, hj2, rfl⟩
  have hm : 0 < files.length := by omega
  constructor
  · exact Nat.le_add_right 20 _
  · have : 50 * j / files.length ≤ 50 := by
      calc 50 * j / files.length
          ≤ 50 * files.length / files.length :=
            Nat.div_le_div_right (Nat.mul_le_mul_left 50 (by omega))
        _ = 50 := Nat.mul_div_cancel 50 hm
    omega

lemma mem_append_bound {l1 l2 : List ℕ} {b : ℕ}
    (h1 : ∀ p ∈ l1, p ≤ b) (h2 : ∀ p ∈ l2, p ≤ b) :
    ∀ p ∈ l1 ++ l2, p ≤ b := by
  intro p hp
  rcases List.mem_append.mp hp with h | h
  · exact h1 p h
  · exact h2 p h

lemma iff_of_both_false {a b : Prop} (ha : ¬ a) (hb : ¬ b) : a ↔ b :=
  ⟨fun h => absurd h ha, fun h => absurd h hb⟩

/-- Claim C7. Over any single run, the progress values written to the
registry entry form a non-decreasing sequence starting from the initial
0, and the final progress equals exactly 100 if and only if the final
status is completed. -/
theorem C7_progress_monotone :
    ∀ (inp : JobInput) (env : Env),
      (0 :: progressWrites (do_render inp env)).Sorted (· ≤ ·) ∧
      ((runJob inp env).progress = 100 ↔ (runJob inp env).status = Status.completed) := by
  intro inp env
  have hdlsorted := progressWrites_dl_sorted inp.scenes (max 1 inp.scenes.length) 0
  have hdlub : ∀ p ∈ progressWrites
      (downloadEvents inp.scenes (max 1 inp.scenes.length) 0).1, p ≤ 20 :=
    fun p hp => pw_dl_ub inp.scenes p hp
  by_cases hfm : inp.scenes.filterMap sceneFile = []
  · have hsh := do_render_eq_noValid inp env hfm
    have hpw : progressWrites (do_render inp env) =
        progressWrites (downloadEvents inp.scenes (max 1 inp.scenes.length) 0).1 := by
      rw [hsh, progressWrites_append, progressWrites_append, progressWrites_preTrace,
        progressWrites_failTrace]
      simp
    have hfields := runTrace_fail_fields _ Err.noValidScenes (basicEvent_prefix0 inp)
    have hstat : (runJob inp env).status = Status.failed := by
      rw [runJob, hsh]
      exact hfields.1
    have hprog : (runJob inp env).progress ≠ 100 := by
      rw [runJob, hsh, runTrace, List.foldl_append, state_after_failTrace]
      show (List.foldl applyEvent initState _).progress ≠ 100
      rcases foldl_progress_mem (preTrace ++
          (downloadEvents inp.scenes (max 1 inp.scenes.length) 0).1) initState with h | h
      · rw [h]
        exact by decide
      · rw [progressWrites_append, progressWrites_preTrace, List.nil_append] at h
        have := hdlub _ h
        omega
    refine ⟨?_, iff_of_both_false hprog (by rw [hstat]; exact fun h => by cases h)⟩
    rw [hpw, List.sorted_cons]
    exact ⟨fun b _ => Nat.zero_le b, hdlsorted⟩
  · have hsegsorted := progressWrites_seg_sorted (inp.scenes.filterMap sceneFile)
      env.segResults (inp.scenes.filterMap sceneFile).length 0
    have hsegb : ∀ p ∈ progressWrites (segmentEvents (inp.scenes.filterMap sceneFile)
        env.segResults (inp.scenes.filterMap sceneFile).length 0).1,
        20 ≤ p ∧ p ≤ 70 :=
      fun p hp => pw_seg_bounds _ _ p hp
    have hsorted_dlseg : (progressWrites
        (downloadEvents inp.scenes (max 1 inp.scenes.length) 0).1 ++
        progressWrites (segmentEvents (inp.scenes.filterMap sceneFile)
          env.segResults (inp.scenes.filterMap sceneFile).length 0).1).Sorted (· ≤ ·) :=
      sorted_append_pivot 20 hdlsorted hsegsorted hdlub (fun p hp => (hsegb p hp).1)
    have hub_dlseg : ∀ p ∈ progressWrites
        (downloadEvents inp.scenes (max 1 inp.scenes.length) 0).1 ++
        progressWrites (segmentEvents (inp.scenes.filterMap sceneFile)
          env.segResults (inp.scenes.filterMap sceneFile).length 0).1, p ≤ 70 :=
      mem_append_bound (fun p hp => le_trans (hdlub p hp) (by omega))
        (fun p hp => (hsegb p hp).2)
    cases hsegc : (segmentEvents (inp.scenes.filterMap sceneFile) env.segResults
        (inp.scenes.filterMap sceneFile).length 0).2 with
    | some e =>
      have hsh := do_render_eq_segFail inp env e hfm hsegc
      have hpw : progressWrites (do_render inp env) =
          progressWrites (downloadEvents inp.scenes (max 1 inp.scenes.length) 0).1 ++
          progressWrites (segmentEvents (inp.scenes.filterMap sceneFile)
            env.segResults (inp.scenes.filterMap sceneFile).length 0).1 := by
        simp [progressWrites_append, progressWrites_preTrace, progressWrites_cons_msg,
          progressWrites_failTrace, hsh]
      have hfields := runTrace_fail_fields _ e (basicEvent_prefix1 inp env)
      have hstat : (runJob inp env).status = Status.failed := by
        rw [runJob, hsh]
        exact hfields.1
      have hprog : (runJob inp env).progress ≠ 100 := by
        rw [runJob, hsh, runTrace, List.foldl_append, state_after_failTrace]
        show (List.foldl applyEvent initState _).progress ≠ 100
        rcases foldl_progress_mem (preTrace ++
            (downloadEvents inp.scenes (max 1 inp.scenes.length) 0).1 ++
            Event.setMessage :: (segmentEvents (inp.scenes.filterMap sceneFile)
              env.segResults (inp.scenes.filterMap sceneFile).length 0).1)
            initState with h | h
        · rw [h]
          exact by decide
        · rw [progressWrites_append, progressWrites_append, progressWrites_preTrace,
            progressWrites_cons_msg, List.nil_append] at h
          have := hub_dlseg _ h
          omega
      refine ⟨?_, iff_of_both_false hprog (by rw [hstat]; exact fun h => by cases h)⟩
      rw [hpw, List.sorted_cons]
      exact ⟨fun b _ => Nat.zero_le b, hsorted_dlseg⟩
    | none =>
      cases hasmc : (assemblyEvents (inp.scenes.filterMap sceneFile).length env).2 with
      | some e =>
        have hsh := do_render_eq_asmFail inp env e hfm hsegc hasmc
        have hpw : progressWrites (do_render inp env) =
            progressWrites (downloadEvents inp.scenes (max 1 inp.scenes.length) 0).1 ++
            progressWrites (segmentEvents (inp.scenes.filterMap sceneFile)
              env.segResults (inp.scenes.filterMap sceneFile).length 0).1 := by
          simp [progressWrites_append, progressWrites_preTrace, progressWrites_cons_msg,
            progressWrites_asm, progressWrites_failTrace, hsh]
        have hfields := runTrace_fail_fields _ e (basicEvent_prefix2 inp env)
        have hstat : (runJob inp env).status = Status.failed := by
          rw [runJob, hsh]
          exact hfields.1
        have hprog : (runJob inp env).progress ≠ 100 := by
          rw [runJob, hsh, runTrace, List.foldl_append, state_after_failTrace]
          show (List.foldl applyEvent initState _).progress ≠ 100
          rcases foldl_progress_mem (preTrace ++
              (downloadEvents inp.scenes (max 1 inp.scenes.length) 0).1 ++
              Event.setMessage :: (segmentEvents (inp.scenes.filterMap sceneFile)
                env.segResults (inp.scenes.filterMap sceneFile).length 0).1 ++
              Event.setMessage ::
                (assemblyEvents (inp.scenes.filterMap sceneFile).length env).1)
              initState with h | h
          · rw [h]
            exact by decide
          · rw [progressWrites_append, progressWrites_append, progressWrites_append,
              progressWrites_preTrace, progressWrites_cons_msg, progressWrites_cons_msg,
              progressWrites_asm, List.nil_append, List.append_nil] at h
            have := hub_dlseg _ h
            omega
        refine ⟨?_, iff_of_both_false hprog (by rw [hstat]; exact fun h => by cases h)⟩
        rw [hpw, List.sorted_cons]
        exact ⟨fun b _ => Nat.zero_le b, hsorted_dlseg⟩
      | none =>
        cases hmrgc : (mergeEvents env).2 with
        | some e =>
          have hsh := do_render_eq_mrgFail inp env e hfm hsegc hasmc hmrgc
          have hpw : progressWrites (do_render inp env) =
              (progressWrites (downloadEvents inp.scenes (max 1 inp.scenes.length) 0).1 ++
              progressWrites (segmentEvents (inp.scenes.filterMap sceneFile)
                env.segResults (inp.scenes.filterMap sceneFile).length 0).1) ++
              [75] := by
            simp [progressWrites_append, progressWrites_preTrace, progressWrites_cons_msg,
              progressWrites_asm, progressWrites_cons_progress, progressWrites_mrg,
              progressWrites_failTrace, hsh]
          have hfields := runTrace_fail_fields _ e (basicEvent_prefix3 inp env)
          have hstat : (runJob inp env).status = Status.failed := by
            rw [runJob, hsh]
            exact hfields.1
          have hprog : (runJob inp env).progress ≠ 100 := by
            rw [runJob, hsh, runTrace, List.foldl_append, state_after_failTrace]
            show (List.foldl applyEvent initState _).progress ≠ 100
            rcases foldl_progress_mem (preTrace ++
                (downloadEvents inp.scenes (max 1 inp.scenes.length) 0).1 ++
                Event.setMessage :: (segmentEvents (inp.scenes.filterMap sceneFile)
                  env.segResults (inp.scenes.filterMap sceneFile).length 0).1 ++
                Event.setMessage ::
                  (assemblyEvents (inp.scenes.filterMap sceneFile).length env).1 ++
                Event.setProgress 75 :: Event.setMessage :: (mergeEvents env).1)
                initState with h | h
            · rw [h]
              exact by decide
            · rw [progressWrites_append, progressWrites_append, progressWrites_append,
                progressWrites_append, progressWrites_preTrace, progressWrites_cons_msg,
                progressWrites_cons_msg, progressWrites_asm, progressWrites_cons_progress,
                progressWrites_cons_msg, progressWrites_mrg, List.nil_append,
                List.append_nil] at h
              rcases List.mem_append.mp h with h2 | h2
              · have := hub_dlseg _ h2
                omega
              · have h3 := List.mem_singleton.mp h2
                omega
          refine ⟨?_, iff_of_both_false hprog (by rw [hstat]; exact fun h => by cases h)⟩
          rw [hpw, List.sorted_cons]
          refine ⟨fun b _ => Nat.zero_le b, ?_⟩
          refine sorted_append_pivot 70 hsorted_dlseg (by simp) hub_dlseg ?_
          intro y hy
          rcases List.mem_singleton.mp hy with rfl
          omega
        | none =>
          have hsh := do_render_eq_success inp env hfm hsegc hasmc hmrgc
          have hpw : progressWrites (do_render inp env) =
              (progressWrites (downloadEvents inp.scenes (max 1 inp.scenes.length) 0).1 ++
              progressWrites (segmentEvents (inp.scenes.filterMap sceneFile)
                env.segResults (inp.scenes.filterMap sceneFile).length 0).1) ++
              [75, 82, 90, 100] := by
            simp [progressWrites_append, progressWrites_preTrace, progressWrites_cons_msg,
              progressWrites_asm, progressWrites_cons_progress, progressWrites_mrg,
              progressWrites_subs, progressWrites_publish, progressWrites_doneTrace, hsh]
          obtain ⟨h1, h2, _, _, _, _⟩ := runJob_success_fields inp env hfm hsegc hasmc hmrgc
          refine ⟨?_, by rw [h1, h2]; exact iff_of_eq (by simp)⟩
          rw [hpw, List.sorted_cons]
          refine ⟨fun b _ => Nat.zero_le b, ?_⟩
          refine sorted_append_pivot 70 hsorted_dlseg (by simp) hub_dlseg ?_
          intro y hy
          simp at hy
          rcases hy with rfl | rfl | rfl | rfl <;> omega

/-! ## Observation lemmas for the endpoint variant -/

lemma downloadEventsEp_mem (scenes : List EndpointScene) :
    ∀ (n i : ℕ) (e : Event), e ∈ (downloadEventsEp scenes n i).1 →
    (∃ p, e = Event.setProgress p) ∨ e = Event.setMessage := by
  induction scenes with
  | nil => intro n i e he; simp [downloadEventsEp] at he
  | cons s rest ih =>
    intro n i e he
    simp only [downloadEventsEp] at he
    by_cases hs : truthy (epImage s) = true
    · rw [if_pos hs] at he
      simp only [List.cons_append, List.nil_append] at he
      rcases List.mem_cons.mp he with rfl | he2
      · exact Or.inl ⟨_, rfl⟩
      rcases List.mem_cons.mp he2 with rfl | he3
      · exact Or.inr rfl
      · exact ih n (i + 1) e he3
    · rw [if_neg hs] at he
      simp only [List.cons_append, List.nil_append] at he
      rcases List.mem_cons.mp he with rfl | he2
      · exact Or.inl ⟨_, rfl⟩
      rcases List.mem_cons.mp he2 with rfl | he3
      · exact Or.inr rfl
      · exact ih n (i + 1) e he3

lemma segmentEventsEp_mem (durs : List ℚ) :
    ∀ (res : ℕ → Bool) (m i : ℕ) (e : Event), e ∈ (segmentEventsEp durs res m i).1 →
    (∃ p, e = Event.setProgress p) ∨ e = Event.setMessage ∨
      (∃ j d, e = Event.encoderInvoke (StageTag.segmentStage j d)) := by
  induction durs with
  | nil => intro res m i e he; simp [segmentEventsEp] at he
  | cons d rest ih =>
    intro res m i e he
    simp only [segmentEventsEp] at he
    by_cases hr : res i = true
    · rw [if_pos hr] at he
      simp only [List.cons_append, List.nil_append] at he
      rcases List.mem_cons.mp he with rfl | he2
      · exact Or.inl ⟨_, rfl⟩
      rcases List.mem_cons.mp he2 with rfl | he3
      · exact Or.inr (Or.inl rfl)
      rcases List.mem_cons.mp he3 with rfl | he4
      · exact Or.inr (Or.inr ⟨_, _, rfl⟩)
      · exact ih res m (i + 1) e he4
    · rw [if_neg hr] at he
      rcases List.mem_cons.mp he with rfl | he2
      · exact Or.inl ⟨_, rfl⟩
      rcases List.mem_cons.mp he2 with rfl | he3
      · exact Or.inr (Or.inl rfl)
      rcases List.mem_cons.mp he3 with rfl | he4
      · exact Or.inr (Or.inr ⟨_, _, rfl⟩)
      · cases he4

lemma statusWrites_dlEp (scenes : List EndpointScene) (n i : ℕ) :
    statusWrites (downloadEventsEp scenes n i).1 = [] := by
  refine statusWrites_eq_nil_of _ ?_
  intro e he s
  rcases downloadEventsEp_mem scenes n i e he with ⟨p, rfl⟩ | rfl <;>
    exact fun h => by cases h

lemma statusWrites_segEp (durs : List ℚ) (res : ℕ → Bool) (m i : ℕ) :
    statusWrites (segmentEventsEp durs res m i).1 = [] := by
  refine statusWrites_eq_nil_of _ ?_
  intro e he s
  rcases segmentEventsEp_mem durs res m i e he with ⟨p, rfl⟩ | rfl | ⟨j, d, rfl⟩ <;>
    exact fun h => by cases h

/-- Claim C8, amended. In backend_server.py every run writes exactly the
status sequence rendering then completed, or rendering then failed, on
top of the initial queued value, so statuses stay within the claimed set
and terminal states are final. The lovable_render_endpoint.py variant
additionally passes through a distinct downloading status before
rendering: its runs write one of four sequences, each ending in a
terminal state that is never left. -/
theorem C8_amended :
    (∀ (inp : JobInput) (env : Env),
      statusWrites (do_render inp env) = [Status.rendering, Status.completed] ∨
      statusWrites (do_render inp env) = [Status.rendering, Status.failed]) ∧
    (∀ (inp : EndpointInput) (env : EndpointEnv),
      statusWrites (render_video_with_ffmpeg inp env) ∈
        ([[Status.failed],
          [Status.downloading, Status.failed],
          [Status.downloading, Status.rendering, Status.failed],
          [Status.downloading, Status.rendering, Status.completed]] :
          List (List Status))) := by
  constructor
  · intro inp env
    by_cases hfm : inp.scenes.filterMap sceneFile = []
    · refine Or.inr ?_
      simp [do_render_eq_noValid inp env hfm, statusWrites_append,
        statusWrites_preTrace, statusWrites_dl, statusWrites_failTrace]
    · cases hsegc : (segmentEvents (inp.scenes.filterMap sceneFile) env.segResults
          (inp.scenes.filterMap sceneFile).length 0).2 with
      | some e =>
        refine Or.inr ?_
        simp [do_render_eq_segFail inp env e hfm hsegc, statusWrites_append,
          statusWrites_preTrace, statusWrites_dl, statusWrites_cons_msg,
          statusWrites_seg, statusWrites_failTrace]
      | none =>
        cases hasmc : (assemblyEvents (inp.scenes.filterMap sceneFile).length env).2 with
        | some e =>
          refine Or.inr ?_
          simp [do_render_eq_asmFail inp env e hfm hsegc hasmc, statusWrites_append,
            statusWrites_preTrace, statusWrites_dl, statusWrites_cons_msg,
            statusWrites_seg, statusWrites_asm, statusWrites_failTrace]
        | none =>
          cases hmrgc : (mergeEvents env).2 with
          | some e =>
            refine Or.inr ?_
            simp [do_render_eq_mrgFail inp env e hfm hsegc hasmc hmrgc,
              statusWrites_append, statusWrites_preTrace, statusWrites_dl,
              statusWrites_cons_msg, statusWrites_cons_progress, statusWrites_seg,
              statusWrites_asm, statusWrites_mrg, statusWrites_failTrace]
          | none =>
            refine Or.inl ?_
            simp [do_render_eq_success inp env hfm hsegc hasmc hmrgc,
              statusWrites_append, statusWrites_preTrace, statusWrites_dl,
              statusWrites_cons_msg, statusWrites_cons_progress, statusWrites_seg,
              statusWrites_asm, statusWrites_mrg, statusWrites_subs,
              statusWrites_publish, statusWrites_doneTrace]
  · intro inp env
    cases hkey : inp.hasServiceKey with
    | false =>
      simp [render_video_with_ffmpeg, hkey, statusWrites_failTrace]
    | true =>
      by_cases hdl : ((downloadEventsEp inp.scenes inp.scenes.length 0).2.isEmpty = true)
      · simp [render_video_with_ffmpeg, hkey, hdl, statusWrites_append,
          statusWrites_cons_status, statusWrites_cons_msg, statusWrites_dlEp,
          statusWrites_failTrace]
      · cases hsegc : (segmentEventsEp (downloadEventsEp inp.scenes inp.scenes.length 0).2
            env.segOk (downloadEventsEp inp.scenes inp.scenes.length 0).2.length 0).2 with
        | some e =>
          simp [render_video_with_ffmpeg, hkey, hdl, hsegc, statusWrites_append,
            statusWrites_cons_status, statusWrites_cons_msg, statusWrites_cons_progress,
            statusWrites_dlEp, statusWrites_segEp, statusWrites_failTrace]
        | none =>
          by_cases hc : env.concatOk = true
          · by_cases hm : env.mergeOk = true
            · by_cases hsub : env.subsOk = true
              · by_cases hup : env.uploadStatus = 200 ∨ env.uploadStatus = 201
                · simp [render_video_with_ffmpeg, hkey, hdl, hsegc, hc, hm, hsub, hup,
                    statusWrites_append, statusWrites_cons_status, statusWrites_cons_msg,
                    statusWrites_cons_progress, statusWrites_cons_invoke,
                    statusWrites_cons_upload, statusWrites_cons_url, statusWrites_nil,
                    statusWrites_dlEp, statusWrites_segEp, statusWrites_failTrace]
                · simp [render_video_with_ffmpeg, hkey, hdl, hsegc, hc, hm, hsub, hup,
                    statusWrites_append, statusWrites_cons_status, statusWrites_cons_msg,
                    statusWrites_cons_progress, statusWrites_cons_invoke,
                    statusWrites_cons_upload, statusWrites_cons_url,
                    statusWrites_dlEp, statusWrites_segEp, statusWrites_failTrace]
              · simp [render_video_with_ffmpeg, hkey, hdl, hsegc, hc, hm, hsub,
                  statusWrites_append, statusWrites_cons_status, statusWrites_cons_msg,
                  statusWrites_cons_progress, statusWrites_cons_invoke,
                  statusWrites_dlEp, statusWrites_segEp, statusWrites_failTrace]
            · simp [render_video_with_ffmpeg, hkey, hdl, hsegc, hc, hm,
                statusWrites_append, statusWrites_cons_status, statusWrites_cons_msg,
                statusWrites_cons_progress, statusWrites_cons_invoke,
                statusWrites_dlEp, statusWrites_segEp, statusWrites_failTrace]
          · simp [render_video_with_ffmpeg, hkey, hdl, hsegc, hc,
              statusWrites_append, statusWrites_cons_status, statusWrites_cons_msg,
              statusWrites_cons_progress, statusWrites_cons_invoke,
              statusWrites_dlEp, statusWrites_segEp, statusWrites_failTrace]
